import Mathlib

set_option maxRecDepth 40000

/-!
Verification of the LLM-council orchestration core (`llm-council-nextjs`).

The definitions below are a shallow embedding of the TypeScript source:

* `parseRankingFromText`, `calculateAggregateRankings`, `stage1Collect`,
  `stage3SynthesizeFinal`, `runFullCouncil` — the 3-stage council pipeline
  (`lib/council.ts`, shipped inside `app/page.tsx`'s bundled sources).
* `getNextSpeaker` — the roundtable scheduler (`lib/roundtable.ts`).
* `detectConsensusByHeuristics` — the heuristic consensus detector
  (`lib/discussion/consensus.ts`).
* `DiscussionOrchestrator` (`terminate`, the `start` loop) —
  `lib/discussion/orchestrator.ts`.

JS numbers are modelled as `ℚ` (all values reached here are small exact
rationals), JS strings as Lean `String`/`List Char`, records keyed by strings
as association lists in insertion order, and the model-invocation boundary
(`queryModel` / `queryModelsParallel`, whose implementation lives outside the
sources in `lib/openrouter.ts`) as explicit oracle functions.
-/

/-! ### JS string primitives used by the ranking parser

`String.prototype.split(sep)` for a non-empty separator: leftmost,
non-overlapping, keeps empty segments. -/

/-- Modelled from `String.prototype.split` (non-empty separator `s0 :: sr`):
`acc` is the reversed current segment. -/
def jsSplitGo (s0 : Char) (sr : List Char) : Nat → List Char → List Char → List (List Char)
  | _, acc, [] => [acc.reverse]
  | 0, acc, _ => [acc.reverse]
  | fuel + 1, acc, c :: rest =>
    if (s0 :: sr).isPrefixOf (c :: rest) then
      acc.reverse :: jsSplitGo s0 sr fuel [] (rest.drop sr.length)
    else
      jsSplitGo s0 sr fuel (c :: acc) rest

/-- JS `text.split(sep)`; only ever used with the non-empty literal
`"FINAL RANKING:"` (an empty separator is mapped to the identity split).
The fuel `l.length` bounds the number of steps (every step consumes at least
one character), keeping the recursion structural so that concrete inputs
evaluate by kernel reduction. -/
def jsSplit (sep : List Char) (l : List Char) : List (List Char) :=
  match sep with
  | [] => [l]
  | s0 :: sr => jsSplitGo s0 sr l.length [] l

/-- The letter class `[A-Z]` of the ranking regexes. -/
def isUpperAZ (c : Char) : Bool := 'A' ≤ c && c ≤ 'Z'

/-- The digit class `\d` of the numbered-ranking regex. -/
def isDigit09 (c : Char) : Bool := '0' ≤ c && c ≤ '9'

/-- The whitespace class `\s` (ASCII part; the claims only exercise spaces,
tabs and newlines). -/
def isJsWs (c : Char) : Bool :=
  c = ' ' || c = '\t' || c = '\n' || c = '\r' || c = '\x0b' || c = '\x0c'

/-- The literal `"Response "` prefix shared by both ranking regexes. -/
def responseLit : List Char := ['R', 'e', 's', 'p', 'o', 'n', 's', 'e', ' ']

/-- Match the regex `Response [A-Z]` at the head of `l`; on success return the
matched letter and the remaining input (regex matching resumes at the end of a
match). -/
def respHead (l : List Char) : Option (Char × List Char) :=
  if l.take 9 = responseLit then
    match l[9]? with
    | some c => if isUpperAZ c then some (c, l.drop 10) else none
    | none => none
  else none

/-- Match the regex `\d+\.\s*Response [A-Z]` at the head of `l`; on success
return the full matched text and the remaining input.  Backtracking inside
`\d+` and `\s*` can never succeed (a digit is not `.` and whitespace is not
`R`), so maximal-munch runs are exact. -/
def numberedHead (l : List Char) : Option (String × List Char) :=
  let ds := l.takeWhile isDigit09
  if ds = [] then none
  else
    let r1 := l.drop ds.length
    if r1.head? = some '.' then
      let r2 := r1.tail
      let ws := r2.takeWhile isJsWs
      match respHead (r2.drop ws.length) with
      | some (u, r) => some (String.mk (ds ++ '.' :: (ws ++ (responseLit ++ [u]))), r)
      | none => none
    else none

/-- Global scan of the regex `Response [A-Z]` (JS `text.match(/Response [A-Z]/g)`
on a character list): successive non-overlapping matches, advancing one
character when no match starts at the current position. -/
def scanResponseFuel : Nat → List Char → List String
  | _, [] => []
  | 0, _ => []
  | fuel + 1, c :: rest =>
    match respHead (c :: rest) with
    | some (u, r) => String.mk (responseLit ++ [u]) :: scanResponseFuel fuel r
    | none => scanResponseFuel fuel rest

/-- Scan with sufficient fuel: each step consumes at least one character. -/
def scanResponseChars (l : List Char) : List String := scanResponseFuel l.length l

/-- Global scan of the regex `\d+\.\s*Response [A-Z]` (JS
`text.match(/\d+\.\s*Response [A-Z]/g)` on a character list). -/
def scanNumberedFuel : Nat → List Char → List String
  | _, [] => []
  | 0, _ => []
  | fuel + 1, c :: rest =>
    match numberedHead (c :: rest) with
    | some (m, r) => m :: scanNumberedFuel fuel r
    | none => scanNumberedFuel fuel rest

/-- Scan with sufficient fuel: each step consumes at least one character. -/
def scanNumberedChars (l : List Char) : List String := scanNumberedFuel l.length l

/-- The literal marker `"FINAL RANKING:"` located by the parser. -/
def markerLit : List Char :=
  ['F', 'I', 'N', 'A', 'L', ' ', 'R', 'A', 'N', 'K', 'I', 'N', 'G', ':']

/-- Embedding of `parseRankingFromText` (council pipeline): split on the
`FINAL RANKING:` marker; on the first split segment after the marker, try the
numbered pattern, fall back to bare `Response X` extraction; with no marker,
scan the whole text.  `text.includes(m)` is equivalent to the split producing
at least two parts, and a `null` regex match result to the empty list. -/
def parseRankingFromText (rankingText : String) : List String :=
  let parts := jsSplit markerLit rankingText.toList
  if parts.length ≥ 2 then
    let rankingSection := parts.getD 1 []
    let numberedMatches := scanNumberedChars rankingSection
    if numberedMatches ≠ [] then
      (numberedMatches.map (fun m => (scanResponseChars m.toList).headD "")).filter
        (fun s => s ≠ "")
    else
      scanResponseChars rankingSection
  else
    scanResponseChars rankingText.toList

/-- Joins split segments back with the separator; `joinWith sep (jsSplit sep l)`
recovers `l`, so `joinWith sep (parts.drop 1)` is the full text after the
first separator occurrence. -/
def joinWith (sep : List Char) : List (List Char) → List Char
  | [] => []
  | [x] => x
  | x :: xs => x ++ sep ++ joinWith sep xs

/-- The ranking-parsing policy exactly as the claim words it ("the text after
the marker" is everything following the first marker occurrence).  This
definition follows the specification text and is compared against
`parseRankingFromText`, which follows the source. -/
def specParseRankingClaim (rankingText : String) : List String :=
  let parts := jsSplit markerLit rankingText.toList
  if parts.length ≥ 2 then
    let afterMarker := joinWith markerLit (parts.drop 1)
    let numberedMatches := scanNumberedChars afterMarker
    if numberedMatches ≠ [] then
      (numberedMatches.map (fun m => (scanResponseChars m.toList).headD "")).filter
        (fun s => s ≠ "")
    else
      scanResponseChars afterMarker
  else
    scanResponseChars rankingText.toList


/-! ### Council pipeline data model (`lib/council.ts`) -/

/-- One per participant whose Stage-1 invocation succeeded. -/
structure Stage1Result where
  model : String
  response : String
deriving DecidableEq

/-- One per participant whose Stage-2 ranking invocation succeeded. -/
structure Stage2Result where
  model : String
  ranking : String
  parsed_ranking : List String
deriving DecidableEq

/-- The chairman synthesis (or the synthetic error result). -/
structure Stage3Result where
  model : String
  response : String
deriving DecidableEq

/-- One aggregate entry per model that received at least one position. -/
structure AggregateRanking where
  model : String
  average_rank : ℚ
  rankings_count : Nat
deriving DecidableEq

/-- A council participant configuration. -/
structure CouncilModelConfig where
  model : String
  systemPrompt : Option String
deriving DecidableEq

/-- First-occurrence deduplication (JS object keys are in insertion order;
re-assigning an existing key keeps its position). -/
def firstDedup : List String → List String
  | [] => []
  | x :: xs => x :: (firstDedup xs).filter (fun y => y ≠ x)

/-- Modelled from the spec: `queryModelsParallel` lives in
`lib/openrouter.ts`, which is not among the sources.  Spec §5: a parallel
fan-out producing "an independent result slot keyed by participant identity",
i.e. a record keyed by model id — one slot per distinct model id, in first
occurrence order; the slot value (model text or failure) is supplied by the
`invoke` oracle (spec §6's `invoke -> {content} | failure`). -/
def queryModelsParallel (invoke : String → Option String) (models : List String) :
    List (String × Option String) :=
  (firstDedup models).map (fun m => (m, invoke m))

/-- Embedding of `stage1CollectResponses`: query all council models in
parallel and keep, in record order, the entries whose response is not null.
(The language-consistency system prompt only changes the request payload,
which the `invoke` oracle abstracts.) -/
def stage1CollectResponses (invoke : String → Option String)
    (councilModels : List CouncilModelConfig) : List Stage1Result :=
  (queryModelsParallel invoke (councilModels.map (fun cfg => cfg.model))).filterMap
    (fun mr => mr.2.map (fun content => Stage1Result.mk mr.1 content))

/-- The anonymized label of the Stage-1 result at index `i`:
`"Response " + String.fromCharCode(65 + i)`. -/
def labelOfIndex (i : Nat) : String := String.mk (responseLit ++ [Char.ofNat (65 + i)])

/-- The `labelToModel` record built by `stage2CollectRankings`: labels are
assigned in Stage-1 collection order. -/
def labelToModelOf (stage1Results : List Stage1Result) : List (String × String) :=
  stage1Results.enum.map (fun p => (labelOfIndex p.1, p.2.model))

/-- Embedding of `stage2CollectRankings`: each council model is queried with
the anonymized ranking prompt (abstracted by the `invoke` oracle), and each
non-null response text is parsed with `parseRankingFromText`. -/
def stage2CollectRankings (invoke : String → Option String)
    (stage1Results : List Stage1Result) (councilModels : List CouncilModelConfig) :
    List Stage2Result × List (String × String) :=
  let labelToModel := labelToModelOf stage1Results
  let responses := queryModelsParallel invoke (councilModels.map (fun cfg => cfg.model))
  let stage2Results := responses.filterMap (fun mr =>
    mr.2.map (fun fullText => Stage2Result.mk mr.1 fullText (parseRankingFromText fullText)))
  (stage2Results, labelToModel)

/-- First-match association-list lookup: JS `label in labelToModel` plus
`labelToModel[label]` (object keys are unique, so first match is the match). -/
def alookup : List (String × String) → String → Option String
  | [], _ => none
  | (k, v) :: rest, key => if k = key then some v else alookup rest key

/-- The stream of `(modelName, position)` contributions processed by
`calculateAggregateRankings`: for each StageTwoResult in order, each label at
0-based index `i` of its `parsed_ranking` that is a key of `labelToModel`
contributes position `i + 1` to the resolved model. -/
def rankingEvents (labelToModel : List (String × String))
    (stage2Results : List Stage2Result) : List (String × Nat) :=
  (stage2Results.map (fun ranking =>
    ranking.parsed_ranking.enum.filterMap (fun p =>
      match alookup labelToModel p.2 with
      | some modelName => some (modelName, p.1 + 1)
      | none => none))).flatten

/-- `modelPositions[modelName].push(position)` on an insertion-ordered record:
append to the existing slot, or append a new slot at the end. -/
def pushPos (acc : List (String × List Nat)) (m : String) (pos : Nat) :
    List (String × List Nat) :=
  if acc.any (fun e => e.1 = m) then
    acc.map (fun e => if e.1 = m then (e.1, e.2 ++ [pos]) else e)
  else acc ++ [(m, [pos])]

/-- The `modelPositions` record after processing every ranking. -/
def modelPositionsOf (labelToModel : List (String × String))
    (stage2Results : List Stage2Result) : List (String × List Nat) :=
  (rankingEvents labelToModel stage2Results).foldl (fun acc e => pushPos acc e.1 e.2) []

/-- JS `Math.round` (round half toward positive infinity). -/
def jsRound (q : ℚ) : ℤ := ⌊q + 1 / 2⌋

/-- `Math.round(x * 100) / 100`: round to two decimal places. -/
def round100 (q : ℚ) : ℚ := (jsRound (q * 100) : ℚ) / 100

/-- `positions.reduce((a, b) => a + b, 0) / positions.length`. -/
def avgOf (ps : List Nat) : ℚ := ((ps.sum : ℚ)) / (ps.length : ℚ)

/-- Stable insertion sort by ascending `average_rank` (insertion before the
first element of equal or larger rank, so equal ranks keep their original
relative order).  ECMAScript `Array.prototype.sort` is required to be stable,
and for the consistent comparator `(a, b) => a.average_rank - b.average_rank`
every stable ascending sort produces the same list. -/
def sortByRank (l : List AggregateRanking) : List AggregateRanking :=
  l.insertionSort (fun a b => a.average_rank ≤ b.average_rank)

/-- The `aggregate` array before sorting: one entry per (necessarily
non-empty) record slot, with the two-decimal rounded average. -/
def preAggregate (stage2Results : List Stage2Result)
    (labelToModel : List (String × String)) : List AggregateRanking :=
  (modelPositionsOf labelToModel stage2Results).filterMap (fun e =>
    if e.2.length > 0 then
      some (AggregateRanking.mk e.1 (round100 (avgOf e.2)) e.2.length)
    else none)

/-- Embedding of `calculateAggregateRankings`: collect positions per model in
an insertion-ordered record, build one aggregate entry per slot, and sort
ascending by average rank. -/
def calculateAggregateRankings (stage2Results : List Stage2Result)
    (labelToModel : List (String × String)) : List AggregateRanking :=
  sortByRank (preAggregate stage2Results labelToModel)

/-- Specification-style view of the record lookup used by the aggregator
(first-match association lookup with position lists as values). -/
def plookup : List (String × List Nat) → String → Option (List Nat)
  | [], _ => none
  | (k, v) :: rest, key => if k = key then some v else plookup rest key

/-- Specification-style view of the positions a model receives: the positions
of every contribution event carrying that model, in order. -/
def posSpec (evts : List (String × Nat)) (m : String) : List Nat :=
  evts.filterMap (fun e => if e.1 = m then some e.2 else none)

/-- The number of positions of one parsed ranking whose label resolves to
model `m`. -/
def labelOccurrences (labelToModel : List (String × String)) (r : Stage2Result)
    (m : String) : Nat :=
  (r.parsed_ranking.filter (fun lab => alookup labelToModel lab = some m)).length

/-- First occurrences of a key stream, skipping keys already seen: the order
in which record keys are created. -/
def firstDedupFrom : List String → List String → List String
  | _, [] => []
  | seen, k :: ks =>
    if k ∈ seen then firstDedupFrom seen ks else k :: firstDedupFrom (k :: seen) ks

/-- JS `String.prototype.trim` (ASCII whitespace suffices here). -/
def jsTrim (s : String) : String :=
  String.mk (((s.toList.dropWhile isJsWs).reverse.dropWhile isJsWs).reverse)

/-- Embedding of the chairman choice in `stage3SynthesizeFinal`:
`chairmanOverride?.trim().length ? chairmanOverride.trim() : CHAIRMAN_MODEL`
(the configured `CHAIRMAN_MODEL` is the `chairmanDefault` parameter). -/
def effectiveChairmanOf (chairmanDefault : String) (chairmanOverride : Option String) :
    String :=
  match chairmanOverride with
  | some o => if (jsTrim o).length > 0 then jsTrim o else chairmanDefault
  | none => chairmanDefault

/-- Embedding of `stage3SynthesizeFinal`: a single invocation of the
effective chairman model; a null response yields the synthetic error result
naming that chairman model. -/
def stage3SynthesizeFinal (invoke : String → Option String) (chairmanDefault : String)
    (chairmanOverride : Option String) : Stage3Result :=
  let chairman := effectiveChairmanOf chairmanDefault chairmanOverride
  match invoke chairman with
  | none => Stage3Result.mk chairman "Error: Unable to generate final synthesis."
  | some content => Stage3Result.mk chairman content

/-- Embedding of `sanitizeCouncilModels`: fall back to the resolved default
configs when no custom models are given, trim model ids and system prompts,
drop entries with empty model ids, and throw when nothing remains (modelled
as `Except.error`). -/
def sanitizeCouncilModels (resolvedDefaults : List CouncilModelConfig)
    (customModels : Option (List CouncilModelConfig)) :
    Except String (List CouncilModelConfig) :=
  let source := match customModels with
    | some l => if l.length > 0 then l else resolvedDefaults
    | none => resolvedDefaults
  let normalized : List CouncilModelConfig := (source.map (fun cfg =>
      CouncilModelConfig.mk (jsTrim cfg.model)
        (match cfg.systemPrompt with
         | some sp => if (jsTrim sp).length > 0 then some (jsTrim sp) else none
         | none => none))).filter (fun cfg => cfg.model.length > 0)
  if normalized.length = 0 then
    Except.error "At least one council model must be specified."
  else
    Except.ok normalized

/-- The value returned by `runFullCouncil` (result plus metadata). -/
structure FullCouncilResult where
  stage1 : List Stage1Result
  stage2 : List Stage2Result
  stage3 : Stage3Result
  label_to_model : List (String × String)
  aggregate_rankings : List AggregateRanking
deriving DecidableEq

/-- Embedding of `runFullCouncil`: sanitize the configs, run Stage 1; if no
model responded return the synthetic all-failed result; otherwise run Stage 2,
aggregate, and synthesize Stage 3.  The three `invoke` oracles stand for the
three distinct dispatch rounds (their prompts differ). -/
def runFullCouncil (invoke1 invoke2 invokeChairman : String → Option String)
    (resolvedDefaults : List CouncilModelConfig) (chairmanDefault : String)
    (customModels : Option (List CouncilModelConfig))
    (chairmanOverride : Option String) : Except String FullCouncilResult :=
  match sanitizeCouncilModels resolvedDefaults customModels with
  | Except.error e => Except.error e
  | Except.ok councilModels =>
    let stage1Results := stage1CollectResponses invoke1 councilModels
    if stage1Results.length = 0 then
      Except.ok (FullCouncilResult.mk [] []
        (Stage3Result.mk "error" "All models failed to respond. Please try again.") [] [])
    else
      let s2 := stage2CollectRankings invoke2 stage1Results councilModels
      let aggregateRankings := calculateAggregateRankings s2.1 s2.2
      let stage3Result := stage3SynthesizeFinal invokeChairman chairmanDefault chairmanOverride
      Except.ok (FullCouncilResult.mk stage1Results s2.1 stage3Result s2.2 aggregateRankings)

/-! ### Roundtable scheduler (`lib/roundtable.ts`) -/

/-- A roundtable participant. -/
structure Participant where
  id : String
  name : String
  systemPrompt : Option String
deriving DecidableEq

/-- Embedding of `getNextSpeaker`: round-robin.  `findIndex` yields `-1` for a
missing id; `participants[i]` out of range is JS `undefined`, modelled as
`none`. -/
def getNextSpeaker (participants : List Participant) (lastModelId : Option String) :
    Option Participant :=
  match lastModelId with
  | none => participants[0]?
  | some lastId =>
    let currentIndex : Int :=
      match participants.findIdx? (fun p => p.id = lastId) with
      | some i => (i : Int)
      | none => -1
    let nextIndex := (currentIndex + 1) % (participants.length : Int)
    participants[nextIndex.toNat]?

/-! ### Consensus detection (`lib/discussion/consensus.ts`) -/

/-- Message sentiment tag (unused by the detector, kept for fidelity). -/
inductive Sentiment where
  | agree
  | disagree
  | neutral
  | question
deriving DecidableEq

/-- A message of the multi-agent discussion. -/
structure DiscussionMessage where
  id : String
  round : Nat
  speakerId : String
  speakerName : String
  speakerNameEn : String
  speakerAvatar : String
  speakerColor : String
  content : String
  timestamp : Nat
  sentiment : Option Sentiment
deriving DecidableEq

/-- The `method` union of `ConsensusResult`. -/
inductive ConsensusMethod where
  | semantic_similarity
  | llm_judge
  | heuristic
  | combined
deriving DecidableEq

/-- Consensus detection result. -/
structure ConsensusResult where
  detected : Bool
  confidence : ℚ
  method : ConsensusMethod
  basedOnMessages : List String
deriving DecidableEq

/-- Case folding for the `i` regex flag (simple lowercasing; all patterns are
ASCII). -/
def lowerChars (s : String) : List Char := s.toList.map Char.toLower

/-- Substring occurrence test (JS `RegExp.test` with a literal pattern). -/
def infixOf (pat : List Char) : List Char → Bool
  | [] => pat.isEmpty
  | c :: rest => pat.isPrefixOf (c :: rest) || infixOf pat rest

/-- A case-insensitive literal pattern test, e.g. `/agree/i.test(content)`. -/
def ciTest (pat : String) (content : String) : Bool :=
  infixOf (lowerChars pat) (lowerChars content)

/-- JS line terminators, which `.` never matches. -/
def isNL (c : Char) : Bool :=
  c = Char.ofNat 10 || c = Char.ofNat 13 || c = Char.ofNat 0x2028 || c = Char.ofNat 0x2029

/-- Scans for an occurrence of `b` with no line terminator before it (the
`.*` gap of the two-literal regexes). -/
def noNLThen (b : List Char) : List Char → Bool
  | [] => b.isPrefixOf []
  | c :: rest => b.isPrefixOf (c :: rest) || (!isNL c && noNLThen b rest)

/-- Test of a regex `a.*b` (e.g. `/i think.*wrong/i`): an occurrence of `a`
followed, with no intervening line terminator, by an occurrence of `b`. -/
def seqMatch (a b : List Char) : List Char → Bool
  | [] => a.isPrefixOf [] && noNLThen b []
  | c :: rest =>
    (a.isPrefixOf (c :: rest) && noNLThen b ((c :: rest).drop a.length)) ||
      seqMatch a b rest

/-- Case-insensitive `a.*b` test. -/
def seqTest (a b : String) (content : String) : Bool :=
  seqMatch (lowerChars a) (lowerChars b) (lowerChars content)

/-- Factor 2: the `affirmativePatterns` list. -/
def affirmativeTest (content : String) : Bool :=
  ["agree", "makes sense", "good point", "concur", "seems right", "reasonable",
   "sound", "valid", "well said", "exactly", "precisely"].any
    (fun pat => ciTest pat content)

/-- Factor 3: the `disagreementPatterns` list (note `/i think.*wrong/i` is the
only non-literal pattern). -/
def disagreementTest (content : String) : Bool :=
  (["disagree", "however", "but", "on the other hand"].any
      (fun pat => ciTest pat content)) ||
    seqTest "i think" "wrong" content ||
    (["not quite", "problem", "issue", "concern", "flaw"].any
      (fun pat => ciTest pat content))

/-- Factor 5: `/I agree with/` (case-sensitive) or `/build on.*point/i`. -/
def explicitAgreementTest (content : String) : Bool :=
  infixOf "I agree with".toList content.toList || seqTest "build on" "point" content

/-- The sentence terminators `[.!?]` of the conclusion regex. -/
def isTerm (c : Char) : Bool := c = '.' || c = '!' || c = '?'

/-- Global scan of `/[^.!?]+[.!?]+/g` (fuel-structural like the ranking
scanners; the fuel is an upper bound on steps since each step consumes at
least one character). -/
def sentenceFuel : Nat → List Char → List (List Char)
  | _, [] => []
  | 0, _ => []
  | fuel + 1, c :: rest =>
    if isTerm c then sentenceFuel fuel rest
    else
      let body := (c :: rest).takeWhile (fun x => !isTerm x)
      let afterBody := (c :: rest).dropWhile (fun x => !isTerm x)
      let terms := afterBody.takeWhile isTerm
      if terms = [] then []
      else (body ++ terms) :: sentenceFuel fuel (afterBody.dropWhile isTerm)

/-- All sentences of a content string. -/
def sentencesOf (l : List Char) : List (List Char) := sentenceFuel l.length l

/-- JS-style trim on a character list (ASCII whitespace). -/
def trimList (l : List Char) : List Char :=
  ((l.dropWhile isJsWs).reverse.dropWhile isJsWs).reverse

/-- Factor 4 key: `sentences[sentences.length - 1]?.trim().toLowerCase() || ''`. -/
def conclusionOf (content : String) : String :=
  match (sentencesOf content.toList).getLast? with
  | some sent => String.mk ((trimList sent).map Char.toLower)
  | none => ""

/-- JS `messages.slice(-n)`. -/
def jsSliceLast (n : Nat) (l : List DiscussionMessage) : List DiscussionMessage :=
  l.drop (l.length - n)

/-- Factor 1 quantity: the average `content.length` of the window (JS
string length; code-point length agrees on the ASCII/BMP contents used
here). -/
def avgContentLength (recentMessages : List DiscussionMessage) : ℚ :=
  (((recentMessages.map (fun m => m.content.length)).sum : ℚ)) /
    (((recentMessages.map (fun m => m.content.length)).length : ℚ))

/-- Factor 2 quantity: messages containing an affirmative marker. -/
def affCount (recentMessages : List DiscussionMessage) : Nat :=
  (recentMessages.filter (fun m => affirmativeTest m.content)).length

/-- Factor 3 quantity: messages containing a disagreement marker. -/
def disCount (recentMessages : List DiscussionMessage) : Nat :=
  (recentMessages.filter (fun m => disagreementTest m.content)).length

/-- Factor 4 quantity: the size of the `Set` of per-message conclusions. -/
def uniqueConclusionCount (recentMessages : List DiscussionMessage) : Nat :=
  (firstDedup (recentMessages.map (fun m => conclusionOf m.content))).length

/-- Factor 5 quantity: some message states explicit agreement. -/
def anyExplicitAgreement (recentMessages : List DiscussionMessage) : Bool :=
  recentMessages.any (fun m => explicitAgreementTest m.content)

/-- The five-factor score of `detectConsensusByHeuristics` over the recent
message window: (1) short average message length, (2) affirmative-marker
count at the 2/3 thresholds, (3) scarcity of disagreement markers, (4)
repeated terminal-sentence conclusions (JS `6 / 2` is float division, so the
bound is the exact rational `length / 2`), (5) explicit agreement phrasing. -/
def heuristicScore (recentMessages : List DiscussionMessage) : ℚ :=
  (if avgContentLength recentMessages < 150 then 1 else 0) +
    (if affCount recentMessages ≥ 2 then 1 else 0) +
    (if affCount recentMessages ≥ 3 then (1 : ℚ) / 2 else 0) +
    (if disCount recentMessages ≤ 1 then 1 else 0) +
    (if disCount recentMessages = 0 then (1 : ℚ) / 2 else 0) +
    (if (uniqueConclusionCount recentMessages : ℚ) ≤ (recentMessages.length : ℚ) / 2
      then 1 else 0) +
    (if anyExplicitAgreement recentMessages then 1 else 0)

/-- Embedding of `detectConsensusByHeuristics`: five weighted factors scored
over the last six messages; `detected = confidence >= threshold` with
`confidence = score / 5` (max score 5).  JS numbers are modelled as exact
rationals (every value reached is a small dyadic/decimal rational, on which
IEEE-754 comparison agrees with the exact one). -/
def detectConsensusByHeuristics (messages : List DiscussionMessage) (threshold : ℚ) :
    ConsensusResult :=
  if messages.length < 4 then
    ConsensusResult.mk false 0 ConsensusMethod.heuristic []
  else
    let recentMessages := jsSliceLast 6 messages
    let confidence := heuristicScore recentMessages / 5
    ConsensusResult.mk (decide (confidence ≥ threshold)) confidence
      ConsensusMethod.heuristic (recentMessages.map (fun m => m.id))

/-! ### Discussion orchestrator (`lib/discussion/orchestrator.ts`) -/

/-- Discussion status union. -/
inductive DiscussionStatus where
  | running
  | paused
  | completed
  | terminated
deriving DecidableEq

/-- A discussion role (`lib/roles.ts`). -/
structure AgentRole where
  id : String
  name : String
  nameEn : String
  description : String
  systemPrompt : String
  modelProvider : String
  modelName : String
  color : String
  avatar : String
deriving DecidableEq

/-- User intervention kinds. -/
inductive InterventionType where
  | redirect
  | correction
  | deep_dive
  | terminate
deriving DecidableEq

/-- An intervention record. -/
structure UserIntervention where
  id : String
  kind : InterventionType
  content : String
  insertedAt : Nat
  timestamp : Nat
deriving DecidableEq

/-- Discussion configuration. -/
structure DiscussionConfig where
  topic : String
  roles : List AgentRole
  maxRounds : Nat
  consensusThreshold : ℚ
deriving DecidableEq

/-- The single mutable aggregate owned by a `DiscussionOrchestrator`. -/
structure DiscussionState where
  id : String
  config : DiscussionConfig
  currentRound : Nat
  currentSpeakerIndex : Nat
  messages : List DiscussionMessage
  status : DiscussionStatus
  consensusDetected : Bool
  userInterventions : List UserIntervention
  createdAt : Nat
  completedAt : Option Nat
deriving DecidableEq

/-- The fresh state built by the `DiscussionOrchestrator` constructor. -/
def initialDiscussionState (id : String) (config : DiscussionConfig) (now : Nat) :
    DiscussionState :=
  DiscussionState.mk id config 1 0 [] DiscussionStatus.running false [] now none

/-- Completion reasons of `discussion_complete` events. -/
inductive CompleteReason where
  | max_rounds
  | consensus
  | user_terminated
deriving DecidableEq

/-- The discussion events produced by the `start()` loop (the streaming
delta/thinking events are produced by the external agent runtime, not by the
loop itself). -/
inductive DiscussionEvent where
  | discussion_start (state : DiscussionState)
  | discussion_complete (reason : CompleteReason)
  | round_start (round : Nat) (speakerId : String)
  | round_complete (round : Nat)
  | error (message : String)
deriving DecidableEq

/-- Embedding of `DiscussionOrchestrator.terminate` acting on the state: set
status `terminated` and stamp `completedAt = Date.now()` (`now`).  The agent
aborts are external cancellation signals with no state footprint; the method
is total (never throws). -/
def terminateDiscussion (s : DiscussionState) (now : Nat) : DiscussionState :=
  { s with status := DiscussionStatus.terminated, completedAt := some now }

/-- Embedding of `DiscussionOrchestrator.checkConsensus`: at least six
messages, then the heuristic detector at the configured threshold. -/
def checkConsensus (s : DiscussionState) : Bool :=
  if s.messages.length < 6 then false
  else (detectConsensusByHeuristics s.messages s.config.consensusThreshold).detected

/-- The error events of one turn: `agent.prompt` either resolves or throws
(`promptErr` returns the thrown message); a failure yields an `error` event
and the loop continues. -/
def promptEvents (promptErr : String → Option String) (roleId : String) :
    List DiscussionEvent :=
  match promptErr roleId with
  | some msg => [DiscussionEvent.error msg]
  | none => []

/-- Embedding of the `while` loop of `DiscussionOrchestrator.start()`.  One
fuel unit per iteration (the loop needs at most
`(maxRounds + 1 - currentRound) * |roles| + 1` iterations).  Each iteration:
terminal-state checks, max-round check, consensus check, then the current
role speaks (the agent registry contains every role id, so the lookup cannot
fail for an index within `roles`; an out-of-range index, impossible for a
non-empty role list, stops the loop — the TS code would throw there), the
speaker index advances modulo the role count, and a wraparound emits
`round_complete` and increments the round.  `start()` itself never appends to
`messages` (messages are appended externally via `addMessage`). -/
def startLoop (promptErr : String → Option String) (now : Nat) :
    Nat → DiscussionState → List DiscussionEvent × DiscussionState
  | 0, s => ([], s)
  | fuel + 1, s =>
    if s.status ≠ DiscussionStatus.running then ([], s)
    else if s.currentRound > s.config.maxRounds then
      ([DiscussionEvent.discussion_complete CompleteReason.max_rounds],
        { s with status := DiscussionStatus.completed, completedAt := some now })
    else if checkConsensus s then
      let s' := { s with consensusDetected := true,
                         status := DiscussionStatus.completed,
                         completedAt := some now }
      ([DiscussionEvent.discussion_complete CompleteReason.consensus], s')
    else
      match s.config.roles[s.currentSpeakerIndex]? with
      | none => ([], s)
      | some currentRole =>
        let turnEvents := DiscussionEvent.round_start s.currentRound currentRole.id ::
          promptEvents promptErr currentRole.id
        let nextIndex := (s.currentSpeakerIndex + 1) % s.config.roles.length
        if nextIndex = 0 then
          let rec1 := startLoop promptErr now fuel
            { s with currentSpeakerIndex := 0, currentRound := s.currentRound + 1 }
          (turnEvents ++ [DiscussionEvent.round_complete s.currentRound] ++ rec1.1, rec1.2)
        else
          let rec1 := startLoop promptErr now fuel { s with currentSpeakerIndex := nextIndex }
          (turnEvents ++ rec1.1, rec1.2)

/-- Embedding of `start()`: the initial `discussion_start` event followed by
the loop. -/
def startDiscussion (promptErr : String → Option String) (now : Nat)
    (s : DiscussionState) (fuel : Nat) : List DiscussionEvent × DiscussionState :=
  let r := startLoop promptErr now fuel s
  (DiscussionEvent.discussion_start s :: r.1, r.2)

/-- The speakers invoked during a run, in order: one `agent.prompt` call per
`round_start` event. -/
def invokedSpeakers (events : List DiscussionEvent) : List String :=
  events.filterMap (fun e =>
    match e with
    | DiscussionEvent.round_start _ speakerId => some speakerId
    | _ => none)

/-- The labels assigned to `n` Stage-1 results:
`"Response A" .. "Response <nth letter>"`. -/
def assignedLabels (n : Nat) : List String := (List.range n).map labelOfIndex

/-- A discussion message with only `id` and `content` varying (the detector
reads no other field). -/
def mkMsg (msgId content : String) : DiscussionMessage :=
  DiscussionMessage.mk msgId 1 "s" "n" "n" "a" "c" content 0 none

/-- Long filler keeping the average message length at or above 150. -/
def zPad : String := String.mk (List.replicate 155 'z')

/-- A six-message window with exactly two affirmative messages, exactly one
disagreement message, identical terminal sentences, long messages, and no
explicit-agreement phrasing: score 3 of 5. -/
def longConvergentWindow : List DiscussionMessage :=
  [mkMsg "1" ("We agree. " ++ zPad ++ "."),
   mkMsg "2" ("We agree. " ++ zPad ++ "."),
   mkMsg "3" ("However. " ++ zPad ++ "."),
   mkMsg "4" ("Okay. " ++ zPad ++ "."),
   mkMsg "5" ("Okay. " ++ zPad ++ "."),
   mkMsg "6" ("Okay. " ++ zPad ++ ".")]

/-- A six-message window with two affirmative messages, no disagreement
markers, short messages and few distinct conclusions: score 4.5 of 5. -/
def shortConvergentWindow : List DiscussionMessage :=
  [mkMsg "1" "We agree.", mkMsg "2" "We agree.", mkMsg "3" "Okay.",
   mkMsg "4" "Okay.", mkMsg "5" "Okay.", mkMsg "6" "Okay."]

/-- A label map whose registration order is `mB` before `mA`. -/
def tieLabelMap : List (String × String) := [("Response B", "mB"), ("Response A", "mA")]

/-- Four Stage-2 results giving both models the positions 1, 1, 2 (average
4/3 each), with `mA` receiving its first contribution first. -/
def tieRankings : List Stage2Result :=
  [Stage2Result.mk "j1" "t1" ["Response A", "Response B"],
   Stage2Result.mk "j2" "t2" ["Response B", "Response A"],
   Stage2Result.mk "j3" "t3" ["Response A"],
   Stage2Result.mk "j4" "t4" ["Response B"]]

/-- A single concrete role (shape from `lib/roles.ts`). -/
def soloRole : AgentRole :=
  AgentRole.mk "analyst" "分析者" "Analyst" "desc" "prompt" "openai" "gpt-4o" "#10b981" "A"

/-- A concrete discussion configuration: one role, `maxRounds = 1`, and a
consensus threshold of 2 (unreachable, as confidence never exceeds 1). -/
def soloConfig : DiscussionConfig :=
  DiscussionConfig.mk "topic" [soloRole] 1 2

/-! ### Theorems -/

example : parseRankingFromText "FINAL RANKING:\n1. Response B\n2. Response A" =
    ["Response B", "Response A"] := by decide
example : parseRankingFromText "FINAL RANKING:\nbest is Response C, then Response A" =
    ["Response C", "Response A"] := by decide
example : parseRankingFromText "I liked Response B more than Response A" =
    ["Response B", "Response A"] := by decide
example : parseRankingFromText "nothing here" = [] := by decide


theorem respHead_rest_lt {l : List Char} {c : Char} {r : List Char}
    (h : respHead l = some (c, r)) : r.length < l.length := by
  unfold respHead at h
  split at h
  · cases h9 : l[9]? with
    | none => rw [h9] at h; exact absurd h (by simp)
    | some u =>
      rw [h9] at h
      dsimp only at h
      have h9l : 9 < l.length := by
        rw [List.getElem?_eq_some] at h9
        exact h9.1
      by_cases hu : isUpperAZ u = true
      · rw [if_pos hu] at h
        injection h with h'
        injection h' with hc hr
        subst hr
        simp only [List.length_drop]
        omega
      · rw [if_neg hu] at h
        exact absurd h (by simp)
  · exact absurd h (by simp)

theorem numberedHead_rest_lt {l : List Char} {m : String} {r : List Char}
    (h : numberedHead l = some (m, r)) : r.length < l.length := by
  unfold numberedHead at h
  simp only at h
  split at h
  · simp at h
  · rename_i hds
    split at h
    · rename_i hdot
      split at h
      · rename_i u r' hresp
        injection h with h
        injection h with hm hr
        subst hr
        have h1 : r'.length <
            ((l.drop (l.takeWhile isDigit09).length).tail.drop
              ((l.drop (l.takeWhile isDigit09).length).tail.takeWhile isJsWs).length).length :=
          respHead_rest_lt hresp
        have h2 : ∀ (x : List Char) (n : Nat), (x.drop n).length ≤ x.length := by
          intro x n; simp [List.length_drop]
        have h3 : (l.drop (l.takeWhile isDigit09).length).tail.length ≤
            (l.drop (l.takeWhile isDigit09).length).length := by
          cases l.drop (l.takeWhile isDigit09).length <;> simp
        have h4 : (l.takeWhile isDigit09).length ≥ 1 := by
          cases hl : l.takeWhile isDigit09 with
          | nil => exact absurd hl hds
          | cons a b => simp [hl]
        have h5 : (l.drop (l.takeWhile isDigit09).length).length =
            l.length - (l.takeWhile isDigit09).length := List.length_drop ..
        have h6 : l ≠ [] := by
          intro hnil; rw [hnil] at h4; simp at h4
        have h7 : 1 ≤ l.length := by
          cases l with
          | nil => exact absurd rfl h6
          | cons a b => simp
        have h8 := h2 (l.drop (l.takeWhile isDigit09).length).tail
          ((l.drop (l.takeWhile isDigit09).length).tail.takeWhile isJsWs).length
        have h9 : (l.takeWhile isDigit09).length ≤ l.length :=
          (l.takeWhile_sublist isDigit09).length_le
        omega
      · simp at h
    · simp at h

/-! ### Helper lemmas -/

theorem firstDedup_subset {l : List String} {x : String} (h : x ∈ firstDedup l) : x ∈ l := by
  induction l with
  | nil => simp [firstDedup] at h
  | cons a as ih =>
    simp only [firstDedup, List.mem_cons] at h
    rcases h with h | h
    · simp [h]
    · exact List.mem_cons_of_mem _ (ih (List.mem_of_mem_filter h))

theorem firstDedup_nodup (l : List String) : (firstDedup l).Nodup := by
  induction l with
  | nil => simp [firstDedup]
  | cons a as ih =>
    simp only [firstDedup, List.nodup_cons]
    constructor
    · intro hmem
      have := List.of_mem_filter hmem
      simp at this
    · exact ih.filter _

theorem stage1_models_eq (invoke : String → Option String) (l : List String) :
    ((l.map (fun m => (m, invoke m))).filterMap
        (fun mr => mr.2.map (fun content => Stage1Result.mk mr.1 content))).map
      (fun r => r.model) = l.filter (fun m => (invoke m).isSome) := by
  induction l with
  | nil => simp
  | cons a as ih =>
    simp only [List.map_cons, List.filterMap_cons]
    cases h : invoke a with
    | none =>
      simp only [h, Option.map_none', List.filter_cons]
      simp only [h, Option.isSome_none, Bool.false_eq_true, if_false]
      exact ih
    | some v =>
      simp only [h, Option.map_some', List.filter_cons]
      simp only [h, Option.isSome_some, if_true]
      simp only [List.map_cons]
      rw [ih]

theorem filter_model_length_le_one (rs : List Stage1Result)
    (h : (rs.map (fun r => r.model)).Nodup) (m : String) :
    ((rs.filter (fun r => r.model = m)).length ≤ 1) := by
  induction rs with
  | nil => simp
  | cons r rest ih =>
    simp only [List.map_cons, List.nodup_cons] at h
    obtain ⟨hnotmem, hrest⟩ := h
    by_cases hm : r.model = m
    · rw [List.filter_cons_of_pos (by simp [hm])]
      have hnil : rest.filter (fun x => x.model = m) = [] := by
        rw [List.filter_eq_nil_iff]
        intro x hx hxm
        apply hnotmem
        simp only [decide_eq_true_eq] at hxm
        exact List.mem_map.mpr ⟨x, hx, by rw [hxm, hm]⟩
      simp [hnil]
    · rw [List.filter_cons_of_neg (by simp [hm])]
      exact ih hrest

/-- C10: Stage-1 results are keyed by model id, so duplicate participant
configurations collapse to one entry and the result list has pairwise
distinct model ids: the model-id list is duplicate-free, every model id
accounts for at most one result, and a duplicated config yields a single
result. -/
theorem C10_stage1_keyed_by_model :
    (∀ (invoke : String → Option String) (councilModels : List CouncilModelConfig),
        ((stage1CollectResponses invoke councilModels).map (fun r => r.model)).Nodup) ∧
    (∀ (invoke : String → Option String) (councilModels : List CouncilModelConfig)
        (m : String),
        ((stage1CollectResponses invoke councilModels).filter
          (fun r => r.model = m)).length ≤ 1) ∧
    stage1CollectResponses (fun _ => some "ok")
        [CouncilModelConfig.mk "m" none, CouncilModelConfig.mk "m" none] =
      [Stage1Result.mk "m" "ok"] := by
  have key : ∀ (invoke : String → Option String) (councilModels : List CouncilModelConfig),
      ((stage1CollectResponses invoke councilModels).map (fun r => r.model)).Nodup := by
    intro invoke councilModels
    unfold stage1CollectResponses queryModelsParallel
    rw [stage1_models_eq]
    exact (firstDedup_nodup _).filter _
  refine ⟨key, ?_, by decide⟩
  intro invoke councilModels m
  exact filter_model_length_le_one _ (key invoke councilModels) m

/-- C6: `getNextSpeaker` is a strict round-robin: with no prior speaker it
returns the first configured participant; with a prior speaker id found at
(first) position `i` it returns the participant at position `(i + 1) mod n`,
wrapping from the last position to the first; in particular for participants
`[A, B, C, D]`, `lastSpeaker = D` yields `A` and no `lastSpeaker` yields `A`. -/
theorem C6_nextSpeaker_round_robin :
    (∀ (ps : List Participant) (hne : ps ≠ []),
        getNextSpeaker ps none = some (ps.head hne)) ∧
    (∀ (ps : List Participant) (lastId : String) (i : Nat),
        ps.findIdx? (fun p => p.id = lastId) = some i →
        getNextSpeaker ps (some lastId) = ps[(i + 1) % ps.length]?) ∧
    getNextSpeaker
        [Participant.mk "A" "Alpha" none, Participant.mk "B" "Beta" none,
         Participant.mk "C" "Gamma" none, Participant.mk "D" "Delta" none]
        (some "D") = some (Participant.mk "A" "Alpha" none) ∧
    getNextSpeaker
        [Participant.mk "A" "Alpha" none, Participant.mk "B" "Beta" none,
         Participant.mk "C" "Gamma" none, Participant.mk "D" "Delta" none]
        none = some (Participant.mk "A" "Alpha" none) := by
  refine ⟨?_, ?_, by decide, by decide⟩
  · intro ps hne
    cases ps with
    | nil => exact absurd rfl hne
    | cons p rest => simp [getNextSpeaker]
  · intro ps lastId i hfind
    simp only [getNextSpeaker, hfind]
    have h1 : ((i : Int) + 1) = ((i + 1 : Nat) : Int) := by push_cast; ring
    have hcast : (((i : Int) + 1) % (ps.length : Int)).toNat = (i + 1) % ps.length := by
      rw [h1]; omega
    rw [hcast]

theorem C6_nextSpeaker_round_robin_witness :
    List.findIdx? (fun p => p.id = "A")
        [Participant.mk "A" "Alpha" none, Participant.mk "B" "Beta" none] = some 0 ∧
    getNextSpeaker [Participant.mk "A" "Alpha" none, Participant.mk "B" "Beta" none]
        (some "A") =
      [Participant.mk "A" "Alpha" none, Participant.mk "B" "Beta" none][(0 + 1) % 2]? :=
  ⟨by decide,
   C6_nextSpeaker_round_robin.2.1
     [Participant.mk "A" "Alpha" none, Participant.mk "B" "Beta" none] "A" 0 (by decide)⟩

/-- C8 (amended): `terminate()` always sets status `terminated` and stamps
`completedAt` with the current time, and never raises (it is a total state
update).  A second call keeps status `terminated` and changes nothing except
re-stamping `completedAt` with the second call's current time; when the clock
has not advanced the second call leaves the state entirely unchanged. -/
theorem C8_terminate_idempotent_amended :
    (∀ (s : DiscussionState) (now : Nat),
        (terminateDiscussion s now).status = DiscussionStatus.terminated ∧
        (terminateDiscussion s now).completedAt = some now) ∧
    (∀ (s : DiscussionState) (t1 t2 : Nat),
        terminateDiscussion (terminateDiscussion s t1) t2 = terminateDiscussion s t2) ∧
    (∀ (s : DiscussionState) (t : Nat),
        terminateDiscussion (terminateDiscussion s t) t = terminateDiscussion s t) :=
  ⟨fun _ _ => ⟨rfl, rfl⟩, fun _ _ _ => rfl, fun _ _ => rfl⟩

theorem C8_terminate_counterexample :
    terminateDiscussion
        (terminateDiscussion
          (initialDiscussionState "d" (DiscussionConfig.mk "t" [] 20 1) 0) 0) 1 ≠
      terminateDiscussion (initialDiscussionState "d" (DiscussionConfig.mk "t" [] 20 1) 0) 0 ∧
    (terminateDiscussion
        (terminateDiscussion
          (initialDiscussionState "d" (DiscussionConfig.mk "t" [] 20 1) 0) 0) 1).completedAt =
      some 1 := by
  constructor
  · intro h
    have := congrArg DiscussionState.completedAt h
    simp [terminateDiscussion] at this
  · rfl

theorem stage1_all_failed_nil (invoke : String → Option String)
    (councilModels : List CouncilModelConfig)
    (h : ∀ cfg ∈ councilModels, invoke cfg.model = none) :
    stage1CollectResponses invoke councilModels = [] := by
  have hmap : ((stage1CollectResponses invoke councilModels).map (fun r => r.model)) = [] := by
    unfold stage1CollectResponses queryModelsParallel
    rw [stage1_models_eq]
    rw [List.filter_eq_nil_iff]
    intro m hm
    have hmem : m ∈ councilModels.map (fun cfg => cfg.model) := firstDedup_subset hm
    obtain ⟨cfg, hcfg, rfl⟩ := List.mem_map.mp hmem
    rw [h cfg hcfg]
    simp
  exact List.map_eq_nil_iff.mp hmap

/-- C3: if Stage 1 yields zero successful results, `runFullCouncil` returns
(never throws past the sanitize boundary) a result with empty stage1 and
stage2 lists and a synthetic error Stage-3 result; and if the single chairman
invocation of Stage 3 fails, Stage 3 returns a synthetic error result naming
the chairman model instead of raising (both embeddings are total functions
producing values). -/
theorem C3_total_failure_synthetic_results :
    (∀ (invoke1 invoke2 invokeChairman : String → Option String)
        (resolvedDefaults : List CouncilModelConfig) (chairmanDefault : String)
        (customModels : Option (List CouncilModelConfig))
        (chairmanOverride : Option String) (councilModels : List CouncilModelConfig),
        sanitizeCouncilModels resolvedDefaults customModels = Except.ok councilModels →
        (∀ cfg ∈ councilModels, invoke1 cfg.model = none) →
        runFullCouncil invoke1 invoke2 invokeChairman resolvedDefaults chairmanDefault
            customModels chairmanOverride =
          Except.ok (FullCouncilResult.mk [] []
            (Stage3Result.mk "error" "All models failed to respond. Please try again.")
            [] [])) ∧
    (∀ (invoke : String → Option String) (chairmanDefault : String)
        (chairmanOverride : Option String),
        invoke (effectiveChairmanOf chairmanDefault chairmanOverride) = none →
        stage3SynthesizeFinal invoke chairmanDefault chairmanOverride =
          Stage3Result.mk (effectiveChairmanOf chairmanDefault chairmanOverride)
            "Error: Unable to generate final synthesis.") := by
  constructor
  · intro invoke1 invoke2 invokeChairman resolvedDefaults chairmanDefault customModels
      chairmanOverride councilModels hsan hall
    have h1 : stage1CollectResponses invoke1 councilModels = [] :=
      stage1_all_failed_nil invoke1 councilModels hall
    simp only [runFullCouncil, hsan, h1]
    rfl
  · intro invoke chairmanDefault chairmanOverride hfail
    simp only [stage3SynthesizeFinal, hfail]

theorem C3_total_failure_synthetic_results_witness :
    sanitizeCouncilModels [CouncilModelConfig.mk "m1" none] none =
      Except.ok [CouncilModelConfig.mk "m1" none] ∧
    runFullCouncil (fun _ => none) (fun _ => none) (fun _ => none)
        [CouncilModelConfig.mk "m1" none] "chair" none none =
      Except.ok (FullCouncilResult.mk [] []
        (Stage3Result.mk "error" "All models failed to respond. Please try again.") [] []) ∧
    stage3SynthesizeFinal (fun _ => none) "chair" none =
      Stage3Result.mk "chair" "Error: Unable to generate final synthesis." :=
  ⟨rfl,
   C3_total_failure_synthetic_results.1 (fun _ => none) (fun _ => none) (fun _ => none)
     [CouncilModelConfig.mk "m1" none] "chair" none none
     [CouncilModelConfig.mk "m1" none] rfl (fun _ _ => rfl),
   C3_total_failure_synthetic_results.2 (fun _ => none) "chair" none rfl⟩

/-- C1 (amended): the layered fallback policy of `parseRankingFromText`,
with "the text after the marker" read as the split segment between the first
marker occurrence and the next one (the entire remaining text whenever the
marker occurs at most once, which the equivalence below captures as the split
producing at most two parts): numbered `<n>. Response <letter>` extraction
first, then bare `Response <letter>` extraction after the marker, then bare
extraction over the whole text when the marker is absent; a text with the
marker followed by `1. Response B` and `2. Response A` parses to exactly
`["Response B", "Response A"]`. -/
theorem C1_parse_layered_fallback :
    (∀ (t : String), (jsSplit markerLit t.toList).length ≤ 2 →
        parseRankingFromText t = specParseRankingClaim t) ∧
    parseRankingFromText "FINAL RANKING:\n1. Response B\n2. Response A" =
      ["Response B", "Response A"] ∧
    parseRankingFromText "FINAL RANKING:\nResponse B then Response A" =
      ["Response B", "Response A"] ∧
    parseRankingFromText "no marker, but Response B then Response A appear" =
      ["Response B", "Response A"] := by
  refine ⟨?_, by decide, by decide, by decide⟩
  intro t h
  unfold parseRankingFromText specParseRankingClaim
  by_cases hp : (jsSplit markerLit t.toList).length ≥ 2
  · have h2 : (jsSplit markerLit t.toList).length = 2 := le_antisymm h hp
    obtain ⟨a, b, hab⟩ := List.length_eq_two.mp h2
    rw [hab]
    simp [joinWith]
  · rw [if_neg hp, if_neg hp]

theorem C1_parse_layered_fallback_witness :
    (jsSplit markerLit "FINAL RANKING: 1. Response A".toList).length ≤ 2 ∧
    parseRankingFromText "FINAL RANKING: 1. Response A" =
      specParseRankingClaim "FINAL RANKING: 1. Response A" :=
  ⟨by decide, C1_parse_layered_fallback.1 "FINAL RANKING: 1. Response A" (by decide)⟩

theorem C1_parse_counterexample :
    parseRankingFromText "FINAL RANKING: 1. Response A FINAL RANKING: 2. Response B" =
      ["Response A"] ∧
    specParseRankingClaim "FINAL RANKING: 1. Response A FINAL RANKING: 2. Response B" =
      ["Response A", "Response B"] ∧
    parseRankingFromText "FINAL RANKING: 1. Response A FINAL RANKING: 2. Response B" ≠
      specParseRankingClaim "FINAL RANKING: 1. Response A FINAL RANKING: 2. Response B" :=
  ⟨by decide, by decide, by decide⟩

theorem respHead_upper {l : List Char} {u : Char} {r : List Char}
    (h : respHead l = some (u, r)) : isUpperAZ u = true := by
  unfold respHead at h
  split at h
  · cases h9 : l[9]? with
    | none => rw [h9] at h; exact absurd h (by simp)
    | some c =>
      rw [h9] at h
      dsimp only at h
      by_cases hu : isUpperAZ c = true
      · rw [if_pos hu] at h
        injection h with h'
        injection h' with hc hr
        rw [← hc]
        exact hu
      · rw [if_neg hu] at h
        exact absurd h (by simp)
  · exact absurd h (by simp)

theorem scanResponseFuel_shape (fuel : Nat) :
    ∀ (l : List Char) (s : String), s ∈ scanResponseFuel fuel l →
      ∃ c, isUpperAZ c = true ∧ s = String.mk (responseLit ++ [c]) := by
  induction fuel with
  | zero =>
    intro l s hs
    cases l with
    | nil => simp [scanResponseFuel] at hs
    | cons c rest => simp [scanResponseFuel] at hs
  | succ fuel ih =>
    intro l s hs
    cases l with
    | nil => simp [scanResponseFuel] at hs
    | cons c rest =>
      rw [scanResponseFuel] at hs
      cases hh : respHead (c :: rest) with
      | some ur =>
        obtain ⟨u, r⟩ := ur
        rw [hh] at hs
        rcases List.mem_cons.mp hs with h | h
        · exact ⟨u, respHead_upper hh, h⟩
        · exact ih r s h
      | none =>
        rw [hh] at hs
        exact ih rest s hs

/-- C5 (amended): every label produced by the ranking parser matches
`Response <uppercase letter>`; Stage 2 therefore only emits labels of this
shape — but the parser does not restrict letters to the `n` labels actually
assigned, so a parsed ranking may mention a label outside the assigned set
(such labels are simply ignored by the aggregator). -/
theorem C5_parsed_ranking_label_shape :
    (∀ (t : String) (lab : String), lab ∈ parseRankingFromText t →
        ∃ c, isUpperAZ c = true ∧ lab = String.mk (responseLit ++ [c])) ∧
    (∀ (invoke : String → Option String) (stage1Results : List Stage1Result)
        (councilModels : List CouncilModelConfig) (r : Stage2Result),
        r ∈ (stage2CollectRankings invoke stage1Results councilModels).1 →
        ∀ lab ∈ r.parsed_ranking,
          ∃ c, isUpperAZ c = true ∧ lab = String.mk (responseLit ++ [c])) := by
  have part1 : ∀ (t : String) (lab : String), lab ∈ parseRankingFromText t →
      ∃ c, isUpperAZ c = true ∧ lab = String.mk (responseLit ++ [c]) := by
    intro t lab hmem
    unfold parseRankingFromText at hmem
    dsimp only at hmem
    split at hmem
    · split at hmem
      · have hfil := List.mem_filter.mp hmem
        obtain ⟨m, hm, heq⟩ := List.mem_map.mp hfil.1
        have hne : lab ≠ "" := by simpa using hfil.2
        cases hscan : scanResponseChars m.toList with
        | nil =>
          rw [hscan] at heq
          exact absurd heq.symm hne
        | cons shead stail =>
          rw [hscan] at heq
          have : shead ∈ scanResponseChars m.toList := by rw [hscan]; simp
          rw [← heq]
          exact scanResponseFuel_shape _ _ _ this
      · exact scanResponseFuel_shape _ _ _ hmem
    · exact scanResponseFuel_shape _ _ _ hmem
  refine ⟨part1, ?_⟩
  intro invoke stage1Results councilModels r hr lab hlab
  unfold stage2CollectRankings at hr
  simp only at hr
  obtain ⟨mr, hmr, heq⟩ := List.mem_filterMap.mp hr
  cases h2 : mr.2 with
  | none => rw [h2] at heq; exact absurd heq (by simp)
  | some fullText =>
    rw [h2] at heq
    simp only [Option.map_some'] at heq
    injection heq with heq
    rw [← heq] at hlab
    exact part1 fullText lab hlab

theorem C5_parsed_ranking_label_shape_witness :
    ("Response B" ∈ parseRankingFromText "FINAL RANKING: 1. Response B") ∧
    (∃ c, isUpperAZ c = true ∧ "Response B" = String.mk (responseLit ++ [c])) :=
  ⟨by decide,
   C5_parsed_ranking_label_shape.1 "FINAL RANKING: 1. Response B" "Response B" (by decide)⟩

theorem C5_unknown_label_counterexample :
    (stage2CollectRankings (fun _ => some "FINAL RANKING: 1. Response B")
        [Stage1Result.mk "m1" "resp"] [CouncilModelConfig.mk "judge" none]).1 =
      [Stage2Result.mk "judge" "FINAL RANKING: 1. Response B" ["Response B"]] ∧
    assignedLabels 1 = ["Response A"] ∧
    "Response B" ∉ assignedLabels 1 :=
  ⟨by decide, by decide, by decide⟩

theorem jsSliceLast_of_length_le {n : Nat} {ms : List DiscussionMessage}
    (h : ms.length ≤ n) : jsSliceLast n ms = ms := by
  unfold jsSliceLast
  rw [Nat.sub_eq_zero_of_le h]
  exact List.drop_zero ms

theorem detect_six_iff (ms : List DiscussionMessage) (threshold : ℚ)
    (h6 : ms.length = 6) :
    ((detectConsensusByHeuristics ms threshold).detected = true ↔
      heuristicScore ms / 5 ≥ threshold) := by
  unfold detectConsensusByHeuristics
  rw [if_neg (by omega : ¬ ms.length < 4)]
  rw [jsSliceLast_of_length_le (by omega)]
  simp [decide_eq_true_eq]

theorem avgContentLength_lt_iff (ms : List DiscussionMessage) (h6 : ms.length = 6) :
    (avgContentLength ms < 150 ↔ (ms.map (fun m => m.content.length)).sum < 900) := by
  unfold avgContentLength
  rw [List.length_map, h6]
  have h6q : ((6 : Nat) : ℚ) = 6 := by norm_num
  rw [h6q, div_lt_iff₀ (by norm_num : (0 : ℚ) < 6)]
  have key : ((ms.map (fun m => (m.content.length : ℚ))).sum) =
      ((((ms.map (fun m => m.content.length)).sum : ℕ) : ℚ)) := by
    rw [Nat.cast_list_sum, List.map_map]
    rfl
  rw [key]
  set N := (ms.map (fun m => m.content.length)).sum with hN
  constructor
  · intro h
    have h900 : ((N : ℚ)) < 900 := by linarith
    exact_mod_cast h900
  · intro h
    have hq : ((N : ℚ)) < 900 := by exact_mod_cast h
    linarith

/-- C7 (amended): over a 6-message window the heuristic result is detected
exactly when `score / 5 >= threshold`; a window with at least 2 affirmative
markers, at most 1 disagreement marker and convergent terminal sentences
always earns the three full base points, and at threshold 0.7 it is detected
exactly when it earns at least half a point more from the remaining factors:
average content length below 150 (+1), at least 3 affirmative markers
(+0.5), zero disagreement markers (+0.5), or an explicit-agreement phrase
(+1) — with none of those the score is exactly 3 of 5 (0.6 < 0.7); a window
with heavy disagreement markers (at least 2) and no affirmative language is
never detected at threshold 0.7. -/
theorem C7_heuristic_consensus_amended :
    (∀ (messages : List DiscussionMessage) (threshold : ℚ),
        messages.length = 6 →
        ((detectConsensusByHeuristics messages threshold).detected = true ↔
          heuristicScore messages / 5 ≥ threshold)) ∧
    (∀ (messages : List DiscussionMessage),
        messages.length = 6 →
        affCount messages ≥ 2 →
        disCount messages ≤ 1 →
        uniqueConclusionCount messages ≤ 3 →
        ((detectConsensusByHeuristics messages (7 / 10)).detected = true ↔
          (avgContentLength messages < 150 ∨ affCount messages ≥ 3 ∨
            disCount messages = 0 ∨ anyExplicitAgreement messages = true))) ∧
    (∀ (messages : List DiscussionMessage),
        messages.length = 6 →
        affCount messages = 0 →
        disCount messages ≥ 2 →
        (detectConsensusByHeuristics messages (7 / 10)).detected = false) := by
  refine ⟨detect_six_iff, ?_, ?_⟩
  · intro ms h6 haff hdis hconc
    rw [detect_six_iff ms (7 / 10) h6]
    have e2 : (if affCount ms ≥ 2 then (1 : ℚ) else 0) = 1 := if_pos haff
    have e4 : (if disCount ms ≤ 1 then (1 : ℚ) else 0) = 1 := if_pos hdis
    have e6 : (if (uniqueConclusionCount ms : ℚ) ≤ (ms.length : ℚ) / 2 then (1 : ℚ) else 0)
        = 1 := by
      apply if_pos
      rw [h6]
      have hc : (uniqueConclusionCount ms : ℚ) ≤ 3 := by exact_mod_cast hconc
      push_cast
      linarith
    unfold heuristicScore
    rw [e2, e4, e6]
    constructor
    · intro h
      by_contra hnone
      push_neg at hnone
      obtain ⟨h1, h3, h5, h7⟩ := hnone
      rw [if_neg (not_lt.mpr h1), if_neg (by omega), if_neg h5, if_neg h7] at h
      norm_num at h
    · intro h
      have b1 : (0 : ℚ) ≤ (if avgContentLength ms < 150 then (1 : ℚ) else 0) := by
        split <;> norm_num
      have b3 : (0 : ℚ) ≤ (if affCount ms ≥ 3 then (1 : ℚ) / 2 else 0) := by
        split <;> norm_num
      have b5 : (0 : ℚ) ≤ (if disCount ms = 0 then (1 : ℚ) / 2 else 0) := by
        split <;> norm_num
      have b7 : (0 : ℚ) ≤ (if anyExplicitAgreement ms then (1 : ℚ) else 0) := by
        split <;> norm_num
      rcases h with h | h | h | h
      · rw [if_pos h]
        linarith
      · rw [if_pos h]
        linarith
      · rw [if_pos h]
        linarith
      · rw [if_pos h]
        linarith
  · intro ms h6 haff hdis
    have hle : heuristicScore ms ≤ 3 := by
      unfold heuristicScore
      have e2 : (if affCount ms ≥ 2 then (1 : ℚ) else 0) = 0 := if_neg (by omega)
      have e3 : (if affCount ms ≥ 3 then (1 : ℚ) / 2 else 0) = 0 := if_neg (by omega)
      have e4 : (if disCount ms ≤ 1 then (1 : ℚ) else 0) = 0 := if_neg (by omega)
      have e5 : (if disCount ms = 0 then (1 : ℚ) / 2 else 0) = 0 := if_neg (by omega)
      have b1 : (if avgContentLength ms < 150 then (1 : ℚ) else 0) ≤ 1 := by
        split <;> norm_num
      have b6 : (if (uniqueConclusionCount ms : ℚ) ≤ (ms.length : ℚ) / 2 then (1 : ℚ) else 0)
          ≤ 1 := by
        split <;> norm_num
      have b7 : (if anyExplicitAgreement ms then (1 : ℚ) else 0) ≤ 1 := by
        split <;> norm_num
      rw [e2, e3, e4, e5]
      linarith
    cases hdet : (detectConsensusByHeuristics ms (7 / 10)).detected with
    | false => rfl
    | true =>
      have hge := (detect_six_iff ms (7 / 10) h6).mp hdet
      exfalso
      have : (7 : ℚ) / 10 ≤ 3 / 5 := le_trans hge (by linarith)
      norm_num at this

theorem C7_heuristic_consensus_amended_witness :
    (shortConvergentWindow.length = 6 ∧
      affCount shortConvergentWindow ≥ 2 ∧
      disCount shortConvergentWindow ≤ 1 ∧
      uniqueConclusionCount shortConvergentWindow ≤ 3) ∧
    ((detectConsensusByHeuristics shortConvergentWindow (7 / 10)).detected = true ↔
      (avgContentLength shortConvergentWindow < 150 ∨
        affCount shortConvergentWindow ≥ 3 ∨
        disCount shortConvergentWindow = 0 ∨
        anyExplicitAgreement shortConvergentWindow = true)) :=
  ⟨⟨by decide, by decide, by decide, by decide⟩,
   C7_heuristic_consensus_amended.2.1 shortConvergentWindow (by decide) (by decide)
     (by decide) (by decide)⟩

theorem C7_heuristic_consensus_counterexample :
    longConvergentWindow.length = 6 ∧
    affCount longConvergentWindow = 2 ∧
    disCount longConvergentWindow = 1 ∧
    uniqueConclusionCount longConvergentWindow = 1 ∧
    (detectConsensusByHeuristics longConvergentWindow (7 / 10)).detected = false := by
  have h6 : longConvergentWindow.length = 6 := by decide
  have haff : affCount longConvergentWindow = 2 := by decide
  have hdis : disCount longConvergentWindow = 1 := by decide
  have hconc : uniqueConclusionCount longConvergentWindow = 1 := by decide
  have hexp : anyExplicitAgreement longConvergentWindow = false := by decide
  have havg : ¬ avgContentLength longConvergentWindow < 150 := by
    rw [avgContentLength_lt_iff longConvergentWindow h6]
    decide
  have hscore : heuristicScore longConvergentWindow = 3 := by
    unfold heuristicScore
    rw [if_neg havg]
    rw [if_pos (show affCount longConvergentWindow ≥ 2 by rw [haff])]
    rw [if_neg (show ¬ affCount longConvergentWindow ≥ 3 by rw [haff]; omega)]
    rw [if_pos (show disCount longConvergentWindow ≤ 1 by rw [hdis])]
    rw [if_neg (show ¬ disCount longConvergentWindow = 0 by rw [hdis]; omega)]
    rw [if_pos (show (uniqueConclusionCount longConvergentWindow : ℚ) ≤
        (longConvergentWindow.length : ℚ) / 2 by rw [hconc, h6]; push_cast; norm_num)]
    rw [if_neg (show ¬ anyExplicitAgreement longConvergentWindow = true by
        rw [hexp]; simp)]
    norm_num
  refine ⟨h6, haff, hdis, hconc, ?_⟩
  cases hdet : (detectConsensusByHeuristics longConvergentWindow (7 / 10)).detected with
  | false => rfl
  | true =>
    exfalso
    have hge := (detect_six_iff longConvergentWindow (7 / 10) h6).mp hdet
    rw [hscore] at hge
    norm_num at hge

theorem plookup_append (l1 l2 : List (String × List Nat)) (m : String) :
    plookup (l1 ++ l2) m = (plookup l1 m).or (plookup l2 m) := by
  induction l1 with
  | nil => simp [plookup]
  | cons kv rest ih =>
    obtain ⟨k, v⟩ := kv
    by_cases hk : k = m
    · simp [plookup, hk, Option.or]
    · simp [plookup, hk, ih]

theorem any_key_true_lookup (acc : List (String × List Nat)) (m : String)
    (h : acc.any (fun e => e.1 = m) = true) : ∃ v, plookup acc m = some v := by
  induction acc with
  | nil => simp at h
  | cons kv rest ih =>
    obtain ⟨k, v⟩ := kv
    by_cases hk : k = m
    · exact ⟨v, by simp [plookup, hk]⟩
    · simp only [List.any_cons, Bool.or_eq_true] at h
      rcases h with h | h
      · simp [hk] at h
      · obtain ⟨w, hw⟩ := ih h
        exact ⟨w, by simp [plookup, hk, hw]⟩

theorem any_key_false_lookup (acc : List (String × List Nat)) (m : String)
    (h : acc.any (fun e => e.1 = m) = false) : plookup acc m = none := by
  induction acc with
  | nil => simp [plookup]
  | cons kv rest ih =>
    obtain ⟨k, v⟩ := kv
    simp only [List.any_cons, Bool.or_eq_false_iff] at h
    have hk : ¬ k = m := by
      intro hkm
      have := h.1
      simp [hkm] at this
    simp [plookup, hk, ih h.2]

theorem plookup_map_update (acc : List (String × List Nat)) (m' : String) (p : Nat)
    (m : String) :
    plookup (acc.map (fun e => if e.1 = m' then (e.1, e.2 ++ [p]) else e)) m =
      (plookup acc m).map (fun v => if m' = m then v ++ [p] else v) := by
  induction acc with
  | nil => simp [plookup]
  | cons kv rest ih =>
    obtain ⟨k, v⟩ := kv
    simp only [List.map_cons]
    by_cases hk' : k = m'
    · rw [if_pos hk']
      by_cases hk : k = m
      · subst hk
        have hm'm : m' = k := hk'.symm
        simp [plookup, hm'm]
      · simp [plookup, hk, ih]
    · rw [if_neg hk']
      by_cases hk : k = m
      · subst hk
        have hm'k : ¬ m' = k := fun h => hk' h.symm
        simp [plookup, hm'k]
      · simp [plookup, hk, ih]

theorem plookup_pushPos (acc : List (String × List Nat)) (m' : String) (p : Nat)
    (m : String) :
    plookup (pushPos acc m' p) m =
      if m' = m then
        match plookup acc m with
        | some ps => some (ps ++ [p])
        | none => some [p]
      else plookup acc m := by
  unfold pushPos
  cases hany : acc.any (fun e => e.1 = m') with
  | true =>
    rw [if_pos rfl]
    rw [plookup_map_update]
    by_cases hm : m' = m
    · subst hm
      obtain ⟨v, hv⟩ := any_key_true_lookup acc m' hany
      rw [hv, if_pos rfl]
      simp
    · rw [if_neg hm]
      cases plookup acc m with
      | none => simp
      | some v => simp [hm]
  | false =>
    rw [if_neg (by simp : ¬ false = true)]
    rw [plookup_append]
    by_cases hm : m' = m
    · subst hm
      rw [any_key_false_lookup acc m' hany]
      simp [plookup, Option.or]
    · have : plookup [(m', [p])] m = none := by simp [plookup, hm]
      rw [this, if_neg hm]
      cases plookup acc m <;> simp [Option.or]

theorem posSpec_cons (m0 : String) (p0 : Nat) (evts : List (String × Nat)) (m : String) :
    posSpec ((m0, p0) :: evts) m =
      (if m0 = m then p0 :: posSpec evts m else posSpec evts m) := by
  unfold posSpec
  rw [List.filterMap_cons]
  by_cases h : m0 = m
  · simp [h]
  · simp [h]

theorem plookup_foldl (evts : List (String × Nat)) :
    ∀ (acc : List (String × List Nat)) (m : String),
      plookup (evts.foldl (fun a e => pushPos a e.1 e.2) acc) m =
        match plookup acc m with
        | some ps => some (ps ++ posSpec evts m)
        | none => if posSpec evts m = [] then none else some (posSpec evts m) := by
  induction evts with
  | nil =>
    intro acc m
    cases h : plookup acc m with
    | none => simp [posSpec, h]
    | some ps => simp [posSpec, h]
  | cons e evts ih =>
    intro acc m
    obtain ⟨m0, p0⟩ := e
    simp only [List.foldl_cons]
    rw [ih (pushPos acc m0 p0) m]
    rw [plookup_pushPos]
    rw [posSpec_cons]
    by_cases hm : m0 = m
    · rw [if_pos hm, if_pos hm]
      cases h : plookup acc m with
      | none => simp
      | some ps => simp
    · rw [if_neg hm, if_neg hm]

theorem modelPositionsOf_lookup (labelToModel : List (String × String))
    (stage2Results : List Stage2Result) (m : String) :
    plookup (modelPositionsOf labelToModel stage2Results) m =
      if posSpec (rankingEvents labelToModel stage2Results) m = [] then none
      else some (posSpec (rankingEvents labelToModel stage2Results) m) := by
  unfold modelPositionsOf
  rw [plookup_foldl]
  rfl

theorem pushPos_keys (acc : List (String × List Nat)) (m : String) (p : Nat) :
    (pushPos acc m p).map (fun e => e.1) =
      if acc.any (fun e => e.1 = m) then acc.map (fun e => e.1)
      else acc.map (fun e => e.1) ++ [m] := by
  unfold pushPos
  cases hany : acc.any (fun e => e.1 = m) with
  | true =>
    rw [if_pos rfl, if_pos rfl]
    rw [List.map_map]
    apply List.map_congr_left
    intro e he
    by_cases h : e.1 = m
    · simp [h]
    · simp [h]
  | false =>
    rw [if_neg (by simp : ¬ false = true), if_neg (by simp : ¬ false = true)]
    simp

theorem any_key_iff_mem (acc : List (String × List Nat)) (m : String) :
    acc.any (fun e => e.1 = m) = true ↔ m ∈ acc.map (fun e => e.1) := by
  simp [List.any_eq_true, List.mem_map]

theorem foldl_pushPos_keys_nodup (evts : List (String × Nat)) :
    ∀ (acc : List (String × List Nat)),
      ((acc.map (fun e => e.1)).Nodup) →
      (((evts.foldl (fun a e => pushPos a e.1 e.2) acc).map (fun e => e.1)).Nodup) := by
  induction evts with
  | nil => intro acc h; exact h
  | cons e evts ih =>
    intro acc h
    obtain ⟨m, p⟩ := e
    simp only [List.foldl_cons]
    apply ih
    rw [pushPos_keys]
    cases hany : acc.any (fun e => e.1 = m) with
    | true => rw [if_pos rfl]; exact h
    | false =>
      rw [if_neg (by simp : ¬ false = true)]
      rw [List.nodup_append]
      refine ⟨h, List.nodup_singleton m, ?_⟩
      intro x hx hx'
      simp only [List.mem_singleton] at hx'
      subst hx'
      rw [← any_key_iff_mem] at hx
      rw [hany] at hx
      exact absurd hx (by simp)

theorem foldl_pushPos_nonempty (evts : List (String × Nat)) :
    ∀ (acc : List (String × List Nat)),
      (∀ e ∈ acc, e.2 ≠ []) →
      ∀ e ∈ evts.foldl (fun a e => pushPos a e.1 e.2) acc, e.2 ≠ [] := by
  induction evts with
  | nil => intro acc h; exact h
  | cons ev evts ih =>
    intro acc h
    obtain ⟨m, p⟩ := ev
    simp only [List.foldl_cons]
    apply ih
    intro e he
    unfold pushPos at he
    cases hany : acc.any (fun e => e.1 = m) with
    | true =>
      rw [hany] at he
      simp only [if_pos rfl] at he
      obtain ⟨e', he', heq⟩ := List.mem_map.mp he
      by_cases hk : e'.1 = m
      · rw [if_pos hk] at heq
        rw [← heq]
        simp
      · rw [if_neg hk] at heq
        rw [← heq]
        exact h e' he'
    | false =>
      rw [hany] at he
      simp only [if_neg (by simp : ¬ false = true)] at he
      rcases List.mem_append.mp he with h' | h'
      · exact h e h'
      · simp only [List.mem_singleton] at h'
        rw [h']
        simp

theorem plookup_of_mem_nodup {l : List (String × List Nat)} {k : String} {v : List Nat}
    (hnd : (l.map (fun e => e.1)).Nodup) (hmem : (k, v) ∈ l) :
    plookup l k = some v := by
  induction l with
  | nil => simp at hmem
  | cons kv rest ih =>
    obtain ⟨k', v'⟩ := kv
    simp only [List.map_cons, List.nodup_cons] at hnd
    rcases List.mem_cons.mp hmem with h | h
    · injection h with h1 h2
      subst h1
      subst h2
      simp [plookup]
    · by_cases hk : k' = k
      · exfalso
        apply hnd.1
        subst hk
        exact List.mem_map.mpr ⟨(k', v), h, rfl⟩
      · simp only [plookup, if_neg hk]
        exact ih hnd.2 h

theorem firstDedupFrom_congr (ks : List String) :
    ∀ (s1 s2 : List String), (∀ x, x ∈ s1 ↔ x ∈ s2) →
      firstDedupFrom s1 ks = firstDedupFrom s2 ks := by
  induction ks with
  | nil => intro s1 s2 h; rfl
  | cons k ks ih =>
    intro s1 s2 h
    unfold firstDedupFrom
    by_cases hk : k ∈ s1
    · rw [if_pos hk, if_pos ((h k).mp hk)]
      exact ih s1 s2 h
    · rw [if_neg hk, if_neg (fun hc => hk ((h k).mpr hc))]
      rw [ih (k :: s1) (k :: s2) (fun x => by simp [h x])]

theorem foldl_pushPos_keys (evts : List (String × Nat)) :
    ∀ (acc : List (String × List Nat)),
      ((evts.foldl (fun a e => pushPos a e.1 e.2) acc).map (fun e => e.1)) =
        acc.map (fun e => e.1) ++
          firstDedupFrom (acc.map (fun e => e.1)) (evts.map (fun e => e.1)) := by
  induction evts with
  | nil => intro acc; simp [firstDedupFrom]
  | cons e evts ih =>
    intro acc
    obtain ⟨m, p⟩ := e
    simp only [List.foldl_cons, List.map_cons]
    rw [ih (pushPos acc m p)]
    rw [pushPos_keys]
    cases hany : acc.any (fun e => e.1 = m) with
    | true =>
      rw [if_pos rfl]
      have hmem : m ∈ acc.map (fun e => e.1) := (any_key_iff_mem acc m).mp hany
      conv_rhs => rw [firstDedupFrom]
      rw [if_pos hmem]
    | false =>
      rw [if_neg (by simp : ¬ false = true)]
      have hmem : m ∉ acc.map (fun e => e.1) := by
        intro hc
        have := (any_key_iff_mem acc m).mpr hc
        rw [hany] at this
        exact absurd this (by simp)
      conv_rhs => rw [firstDedupFrom]
      rw [if_neg hmem]
      rw [List.append_assoc]
      congr 1
      rw [List.singleton_append]
      congr 1
      apply firstDedupFrom_congr
      intro x
      simp [or_comm]

theorem filterMap_nonempty_entries :
    ∀ (mp : List (String × List Nat)), (∀ e ∈ mp, e.2 ≠ []) →
      mp.filterMap (fun e =>
          if e.2.length > 0 then
            some (AggregateRanking.mk e.1 (round100 (avgOf e.2)) e.2.length)
          else none) =
        mp.map (fun e => AggregateRanking.mk e.1 (round100 (avgOf e.2)) e.2.length) := by
  intro mp
  induction mp with
  | nil => intro _; simp
  | cons kv rest ih =>
    intro hne
    rw [List.filterMap_cons, List.map_cons]
    rw [if_pos (by
      have := hne kv (by simp)
      cases hv : kv.2 with
      | nil => exact absurd hv this
      | cons a b => simp [hv])]
    rw [ih (fun e he => hne e (List.mem_cons_of_mem _ he))]

theorem preAggregate_entries (stage2Results : List Stage2Result)
    (labelToModel : List (String × String)) :
    preAggregate stage2Results labelToModel =
      (modelPositionsOf labelToModel stage2Results).map (fun e =>
        AggregateRanking.mk e.1 (round100 (avgOf e.2)) e.2.length) := by
  unfold preAggregate
  exact filterMap_nonempty_entries _ (foldl_pushPos_nonempty _ [] (by simp))

theorem sortByRank_sorted (l : List AggregateRanking) :
    (sortByRank l).Pairwise (fun a b => a.average_rank ≤ b.average_rank) := by
  haveI : IsTotal AggregateRanking (fun a b => a.average_rank ≤ b.average_rank) :=
    ⟨fun a b => le_total _ _⟩
  haveI : IsTrans AggregateRanking (fun a b => a.average_rank ≤ b.average_rank) :=
    ⟨fun _ _ _ hab hbc => le_trans hab hbc⟩
  exact List.sorted_insertionSort _ l

theorem mem_sortByRank {l : List AggregateRanking} {x : AggregateRanking} :
    x ∈ sortByRank l ↔ x ∈ l := by
  unfold sortByRank
  exact List.mem_insertionSort _

theorem filter_rank_sortByRank (l : List AggregateRanking) (q : ℚ) :
    (sortByRank l).filter (fun e => e.average_rank = q) =
      l.filter (fun e => e.average_rank = q) := by
  unfold sortByRank
  have hperm : List.Perm
      (List.insertionSort (fun a b => a.average_rank ≤ b.average_rank) l) l :=
    List.perm_insertionSort _ l
  have hP : (l.filter (fun e => e.average_rank = q)).Pairwise
      (fun a b => a.average_rank ≤ b.average_rank) := by
    apply List.pairwise_of_forall_mem_list
    intro a ha b hb
    have ha' : a.average_rank = q := by
      have := (List.mem_filter.mp ha).2
      exact of_decide_eq_true this
    have hb' : b.average_rank = q := by
      have := (List.mem_filter.mp hb).2
      exact of_decide_eq_true this
    rw [ha', hb']
  have hsub : List.Sublist (l.filter (fun e => e.average_rank = q))
      (List.insertionSort (fun a b => a.average_rank ≤ b.average_rank) l) :=
    List.sublist_insertionSort hP (List.filter_sublist l)
  have hself : ((l.filter (fun e => e.average_rank = q)).filter
      (fun e => e.average_rank = q)) = l.filter (fun e => e.average_rank = q) :=
    List.filter_eq_self.mpr (fun a ha => (List.mem_filter.mp ha).2)
  have hsub2 : List.Sublist (l.filter (fun e => e.average_rank = q))
      ((List.insertionSort (fun a b => a.average_rank ≤ b.average_rank) l).filter
        (fun e => e.average_rank = q)) := by
    have h2 := hsub.filter (fun e => e.average_rank = q)
    rwa [hself] at h2
  have hlen : ((List.insertionSort (fun a b => a.average_rank ≤ b.average_rank) l).filter
      (fun e => e.average_rank = q)).length =
        (l.filter (fun e => e.average_rank = q)).length :=
    (hperm.filter _).length_eq
  exact (hsub2.eq_of_length hlen.symm).symm

theorem mem_calculateAggregate {rs : List Stage2Result} {lm : List (String × String)}
    {e : AggregateRanking} (he : e ∈ calculateAggregateRankings rs lm) :
    posSpec (rankingEvents lm rs) e.model ≠ [] ∧
    e.rankings_count = (posSpec (rankingEvents lm rs) e.model).length ∧
    e.average_rank = round100 (avgOf (posSpec (rankingEvents lm rs) e.model)) := by
  have he1 : e ∈ preAggregate rs lm := by
    unfold calculateAggregateRankings at he
    exact mem_sortByRank.mp he
  rw [preAggregate_entries] at he1
  obtain ⟨kv, hkv, heq⟩ := List.mem_map.mp he1
  obtain ⟨k, ps⟩ := kv
  have hlook : plookup (modelPositionsOf lm rs) k = some ps :=
    plookup_of_mem_nodup (foldl_pushPos_keys_nodup _ [] (by simp)) hkv
  rw [modelPositionsOf_lookup] at hlook
  by_cases hps : posSpec (rankingEvents lm rs) k = []
  · rw [if_pos hps] at hlook
    exact absurd hlook (by simp)
  · rw [if_neg hps] at hlook
    injection hlook with hlook
    rw [← heq]
    refine ⟨hps, ?_, ?_⟩
    · show ps.length = (posSpec (rankingEvents lm rs) k).length
      rw [hlook]
    · show round100 (avgOf ps) = round100 (avgOf (posSpec (rankingEvents lm rs) k))
      rw [hlook]

/-- C2 (amended): every aggregate entry's model has at least one contributed
position; its `rankings_count` is the number of contributed positions and its
`average_rank` is the mean of the contributed positions **rounded to two
decimal places** (`Math.round(avg * 100) / 100`), not the exact mean; models
with zero contributions are excluded; the list is sorted ascending by
`average_rank`, with ties broken by the order in which models received their
first contribution (the unsorted aggregate array lists models in
first-contribution order and the sort is stable), not by model-registration
order. -/
theorem C2_aggregate_rankings_amended :
    (∀ (rs : List Stage2Result) (lm : List (String × String)),
        ∀ e ∈ calculateAggregateRankings rs lm,
          posSpec (rankingEvents lm rs) e.model ≠ [] ∧
          e.rankings_count = (posSpec (rankingEvents lm rs) e.model).length ∧
          e.average_rank = round100 (avgOf (posSpec (rankingEvents lm rs) e.model))) ∧
    (∀ (rs : List Stage2Result) (lm : List (String × String)) (m : String),
        posSpec (rankingEvents lm rs) m = [] →
        ∀ e ∈ calculateAggregateRankings rs lm, e.model ≠ m) ∧
    (∀ (rs : List Stage2Result) (lm : List (String × String)),
        (calculateAggregateRankings rs lm).Pairwise
          (fun a b => a.average_rank ≤ b.average_rank)) ∧
    (∀ (rs : List Stage2Result) (lm : List (String × String)) (q : ℚ),
        (calculateAggregateRankings rs lm).filter (fun e => e.average_rank = q) =
          (preAggregate rs lm).filter (fun e => e.average_rank = q)) ∧
    (∀ (rs : List Stage2Result) (lm : List (String × String)),
        (preAggregate rs lm).map (fun e => e.model) =
          firstDedupFrom [] ((rankingEvents lm rs).map (fun e => e.1))) := by
  refine ⟨?_, ?_, ?_, ?_, ?_⟩
  · intro rs lm e he
    exact mem_calculateAggregate he
  · intro rs lm m hm e he hem
    have h1 := (mem_calculateAggregate he).1
    rw [hem] at h1
    exact h1 hm
  · intro rs lm
    unfold calculateAggregateRankings
    exact sortByRank_sorted _
  · intro rs lm q
    unfold calculateAggregateRankings
    exact filter_rank_sortByRank _ q
  · intro rs lm
    have h1 : (preAggregate rs lm).map (fun e => e.model) =
        (modelPositionsOf lm rs).map (fun e => e.1) := by
      rw [preAggregate_entries, List.map_map]
      rfl
    rw [h1]
    unfold modelPositionsOf
    rw [foldl_pushPos_keys]
    simp

theorem C2_aggregate_rankings_amended_witness :
    (AggregateRanking.mk "m" (round100 (avgOf [1])) 1 ∈
        calculateAggregateRankings [Stage2Result.mk "j" "t" ["Response A"]]
          [("Response A", "m")]) ∧
    (posSpec (rankingEvents [("Response A", "m")]
          [Stage2Result.mk "j" "t" ["Response A"]]) "m" ≠ [] ∧
      (AggregateRanking.mk "m" (round100 (avgOf [1])) 1).rankings_count =
        (posSpec (rankingEvents [("Response A", "m")]
          [Stage2Result.mk "j" "t" ["Response A"]]) "m").length ∧
      (AggregateRanking.mk "m" (round100 (avgOf [1])) 1).average_rank =
        round100 (avgOf (posSpec (rankingEvents [("Response A", "m")]
          [Stage2Result.mk "j" "t" ["Response A"]]) "m"))) := by
  have hmem : AggregateRanking.mk "m" (round100 (avgOf [1])) 1 ∈
      calculateAggregateRankings [Stage2Result.mk "j" "t" ["Response A"]]
        [("Response A", "m")] := by
    have hmp : modelPositionsOf [("Response A", "m")]
        [Stage2Result.mk "j" "t" ["Response A"]] = [("m", [1])] := by decide
    have hcalc : calculateAggregateRankings [Stage2Result.mk "j" "t" ["Response A"]]
        [("Response A", "m")] = [AggregateRanking.mk "m" (round100 (avgOf [1])) 1] := by
      unfold calculateAggregateRankings
      rw [preAggregate_entries, hmp]
      rfl
    rw [hcalc]
    simp
  exact ⟨hmem, C2_aggregate_rankings_amended.1 _ _ _ hmem⟩

theorem C2_aggregate_rankings_counterexample :
    (calculateAggregateRankings tieRankings tieLabelMap).map (fun e => e.model) =
      ["mA", "mB"] ∧
    tieLabelMap.map (fun e => e.2) = ["mB", "mA"] ∧
    (["mA", "mB"] : List String) ≠ ["mB", "mA"] ∧
    avgOf (posSpec (rankingEvents tieLabelMap tieRankings) "mA") = 4 / 3 ∧
    (∀ e ∈ calculateAggregateRankings tieRankings tieLabelMap,
        e.average_rank = 133 / 100) ∧
    (133 : ℚ) / 100 ≠ 4 / 3 := by
  have hmp : modelPositionsOf tieLabelMap tieRankings =
      [("mA", [1, 2, 1]), ("mB", [2, 1, 1])] := by decide
  have havgA : avgOf [1, 2, 1] = 4 / 3 := by
    unfold avgOf
    rw [show ([1, 2, 1] : List Nat).sum = 4 from rfl,
      show ([1, 2, 1] : List Nat).length = 3 from rfl]
    norm_num
  have havgB : avgOf [2, 1, 1] = 4 / 3 := by
    unfold avgOf
    rw [show ([2, 1, 1] : List Nat).sum = 4 from rfl,
      show ([2, 1, 1] : List Nat).length = 3 from rfl]
    norm_num
  have hround : round100 ((4 : ℚ) / 3) = 133 / 100 := by
    unfold round100 jsRound
    have h1 : (4 : ℚ) / 3 * 100 + 1 / 2 = 803 / 6 := by norm_num
    rw [h1]
    have h2 : ⌊(803 : ℚ) / 6⌋ = 133 := by
      rw [Int.floor_eq_iff]
      constructor
      · norm_num
      · norm_num
    rw [h2]
    norm_num
  have hcalc : calculateAggregateRankings tieRankings tieLabelMap =
      [AggregateRanking.mk "mA" (133 / 100) 3, AggregateRanking.mk "mB" (133 / 100) 3] := by
    unfold calculateAggregateRankings
    rw [preAggregate_entries, hmp]
    simp only [List.map_cons, List.map_nil]
    rw [show (([1, 2, 1] : List Nat)).length = 3 from rfl,
      show (([2, 1, 1] : List Nat)).length = 3 from rfl]
    rw [havgA, havgB, hround]
    unfold sortByRank
    simp [List.insertionSort, List.orderedInsert]
  refine ⟨by rw [hcalc]; rfl, rfl, by decide, ?_, ?_, by norm_num⟩
  · rw [show posSpec (rankingEvents tieLabelMap tieRankings) "mA" = [1, 2, 1] from by decide]
    exact havgA
  · intro e he
    rw [hcalc] at he
    rcases List.mem_cons.mp he with h | h
    · rw [h]
    · rcases List.mem_cons.mp h with h' | h'
      · rw [h']
      · simp at h'

theorem alookup_mem_values {lm : List (String × String)} {lab v : String}
    (h : alookup lm lab = some v) : v ∈ lm.map (fun e => e.2) := by
  induction lm with
  | nil => simp [alookup] at h
  | cons kv rest ih =>
    obtain ⟨k, w⟩ := kv
    by_cases hk : k = lab
    · simp only [alookup, if_pos hk] at h
      injection h with h
      simp [h]
    · simp only [alookup, if_neg hk] at h
      exact List.mem_cons_of_mem _ (ih h)

theorem posSpec_ne_nil_exists {evts : List (String × Nat)} {m : String}
    (h : posSpec evts m ≠ []) : ∃ p, (m, p) ∈ evts := by
  induction evts with
  | nil => simp [posSpec] at h
  | cons e evts ih =>
    obtain ⟨m0, p0⟩ := e
    rw [posSpec_cons] at h
    by_cases hm : m0 = m
    · subst hm
      exact ⟨p0, by simp⟩
    · rw [if_neg hm] at h
      obtain ⟨p, hp⟩ := ih h
      exact ⟨p, List.mem_cons_of_mem _ hp⟩

theorem rankingEvents_model_mem {lm : List (String × String)} {rs : List Stage2Result}
    {m : String} {p : Nat} (h : (m, p) ∈ rankingEvents lm rs) :
    m ∈ lm.map (fun e => e.2) := by
  unfold rankingEvents at h
  obtain ⟨inner, hinner, hmem⟩ := List.mem_flatten.mp h
  obtain ⟨r, _, hr⟩ := List.mem_map.mp hinner
  rw [← hr] at hmem
  obtain ⟨q, _, hq⟩ := List.mem_filterMap.mp hmem
  cases halook : alookup lm q.2 with
  | none => rw [halook] at hq; exact absurd hq (by simp)
  | some mn =>
    rw [halook] at hq
    simp only at hq
    injection hq with hq1
    injection hq1 with hm1 hp1
    rw [hm1] at halook
    exact alookup_mem_values halook

theorem labelToModelOf_values (stage1Results : List Stage1Result) :
    (labelToModelOf stage1Results).map (fun e => e.2) =
      stage1Results.map (fun r => r.model) := by
  unfold labelToModelOf
  rw [List.map_map]
  rw [show ((fun (e : String × String) => e.2) ∘
      fun (p : Nat × Stage1Result) => (labelOfIndex p.1, p.2.model)) =
    (fun (p : Nat × Stage1Result) => p.2.model) from rfl]
  rw [show (fun (p : Nat × Stage1Result) => p.2.model) =
    ((fun (r : Stage1Result) => r.model) ∘ Prod.snd) from rfl]
  rw [← List.map_map, List.enum_map_snd]

theorem posSpec_inner (lm : List (String × String)) (m : String) :
    ∀ (l : List String) (n : Nat),
      (posSpec ((List.enumFrom n l).filterMap (fun p =>
          match alookup lm p.2 with
          | some modelName => some (modelName, p.1 + 1)
          | none => none)) m).length =
        (l.filter (fun lab => alookup lm lab = some m)).length := by
  intro l
  induction l with
  | nil => intro n; simp [posSpec]
  | cons lab rest ih =>
    intro n
    rw [List.enumFrom_cons, List.filterMap_cons, List.filter_cons]
    cases halook : alookup lm lab with
    | none =>
      have hne : ¬ (alookup lm lab = some m) := by rw [halook]; simp
      simp only [halook]
      rw [if_neg (by simp [hne])]
      exact ih (n + 1)
    | some mn =>
      by_cases hm : mn = m
      · subst hm
        have heq : alookup lm lab = some mn := halook
        simp only [halook]
        rw [posSpec_cons, if_pos rfl]
        rw [if_pos (by simp [halook])]
        simp only [List.length_cons]
        rw [ih (n + 1)]
      · have hne : ¬ (alookup lm lab = some m) := by
          rw [halook]
          intro hc
          injection hc with hc
          exact hm hc
        simp only [halook]
        rw [posSpec_cons, if_neg hm]
        rw [if_neg (by simp [halook, hm])]
        exact ih (n + 1)

theorem posSpec_rankingEvents_length (lm : List (String × String)) (m : String) :
    ∀ (rs : List Stage2Result),
      (posSpec (rankingEvents lm rs) m).length =
        (rs.map (fun r => labelOccurrences lm r m)).sum := by
  intro rs
  induction rs with
  | nil => simp [rankingEvents, posSpec]
  | cons r rest ih =>
    unfold rankingEvents at ih ⊢
    rw [List.map_cons, List.flatten_cons]
    unfold posSpec at ih ⊢
    rw [List.filterMap_append, List.length_append]
    rw [List.map_cons, List.sum_cons]
    rw [ih]
    congr 1
    have := posSpec_inner lm m r.parsed_ranking 0
    unfold posSpec at this
    rw [show r.parsed_ranking.enum = List.enumFrom 0 r.parsed_ranking from rfl]
    rw [this]
    rfl

theorem sum_occ_eq_count (lm : List (String × String)) (m : String) :
    ∀ (rs : List Stage2Result),
      (∀ r ∈ rs, labelOccurrences lm r m ≤ 1) →
      (rs.map (fun r => labelOccurrences lm r m)).sum =
        (rs.filter (fun r =>
          r.parsed_ranking.any (fun lab => alookup lm lab = some m))).length := by
  intro rs
  induction rs with
  | nil => intro _; simp
  | cons r rest ih =>
    intro h
    rw [List.map_cons, List.sum_cons, List.filter_cons]
    have hr := h r (by simp)
    have hany : (r.parsed_ranking.any (fun lab => alookup lm lab = some m) = true) ↔
        0 < labelOccurrences lm r m := by
      unfold labelOccurrences
      rw [List.length_pos]
      rw [List.any_eq_true]
      constructor
      · rintro ⟨lab, hlab, hdec⟩
        intro hnil
        have : lab ∈ r.parsed_ranking.filter (fun lab => alookup lm lab = some m) :=
          List.mem_filter.mpr ⟨hlab, hdec⟩
        rw [hnil] at this
        simp at this
      · intro hne
        obtain ⟨lab, hlab⟩ := List.exists_mem_of_ne_nil _ hne
        have := List.mem_filter.mp hlab
        exact ⟨lab, this.1, this.2⟩
    cases hocc : labelOccurrences lm r m with
    | zero =>
      have hfalse : r.parsed_ranking.any (fun lab => alookup lm lab = some m) = false := by
        cases hb : r.parsed_ranking.any (fun lab => alookup lm lab = some m) with
        | false => rfl
        | true =>
          have := hany.mp hb
          rw [hocc] at this
          exact absurd this (by omega)
      rw [if_neg (by simp [hfalse])]
      rw [ih (fun x hx => h x (List.mem_cons_of_mem _ hx))]
      omega
    | succ k =>
      have hk : k = 0 := by
        rw [hocc] at hr
        omega
      subst hk
      have htrue : r.parsed_ranking.any (fun lab => alookup lm lab = some m) = true := by
        rw [hany, hocc]
        omega
      rw [if_pos (by simp [htrue])]
      rw [List.length_cons]
      rw [ih (fun x hx => h x (List.mem_cons_of_mem _ hx))]
      omega

/-- C4 (amended): the aggregate contains only models present in the Stage-1
results (unknown labels contribute nothing), and each model's
`rankings_count` equals the **total number of parsed-ranking positions whose
label resolves to that model**, summed over all StageTwoResults; this equals
the number of StageTwoResult entries whose parsedRanking includes the model's
label exactly when no single parsedRanking mentions the model's label more
than once (a parsed ranking that repeats a label contributes one count per
occurrence). -/
theorem C4_aggregate_contains_known_models :
    (∀ (stage1Results : List Stage1Result) (rs : List Stage2Result),
        ∀ e ∈ calculateAggregateRankings rs (labelToModelOf stage1Results),
          e.model ∈ stage1Results.map (fun r => r.model)) ∧
    (∀ (rs : List Stage2Result) (lm : List (String × String)),
        ∀ e ∈ calculateAggregateRankings rs lm,
          e.rankings_count = (rs.map (fun r => labelOccurrences lm r e.model)).sum) ∧
    (∀ (rs : List Stage2Result) (lm : List (String × String)) (m : String),
        (∀ r ∈ rs, labelOccurrences lm r m ≤ 1) →
        (rs.map (fun r => labelOccurrences lm r m)).sum =
          (rs.filter (fun r =>
            r.parsed_ranking.any (fun lab => alookup lm lab = some m))).length) := by
  refine ⟨?_, ?_, ?_⟩
  · intro stage1Results rs e he
    have h1 := (mem_calculateAggregate he).1
    obtain ⟨p, hp⟩ := posSpec_ne_nil_exists h1
    have h2 := rankingEvents_model_mem hp
    rwa [labelToModelOf_values] at h2
  · intro rs lm e he
    have h2 := (mem_calculateAggregate he).2.1
    rw [h2]
    exact posSpec_rankingEvents_length lm e.model rs
  · intro rs lm m h
    exact sum_occ_eq_count lm m rs h

theorem C4_aggregate_contains_known_models_witness :
    (AggregateRanking.mk "m" (round100 (avgOf [1])) 1 ∈
        calculateAggregateRankings [Stage2Result.mk "judge" "t" ["Response A"]]
          (labelToModelOf [Stage1Result.mk "m" "resp"])) ∧
    ("m" ∈ [Stage1Result.mk "m" "resp"].map (fun r => r.model)) ∧
    (AggregateRanking.mk "m" (round100 (avgOf [1])) 1).rankings_count =
      ([Stage2Result.mk "judge" "t" ["Response A"]].map (fun r =>
        labelOccurrences (labelToModelOf [Stage1Result.mk "m" "resp"]) r "m")).sum ∧
    (∀ r ∈ [Stage2Result.mk "judge" "t" ["Response A"]],
        labelOccurrences (labelToModelOf [Stage1Result.mk "m" "resp"]) r "m" ≤ 1) ∧
    ([Stage2Result.mk "judge" "t" ["Response A"]].map (fun r =>
        labelOccurrences (labelToModelOf [Stage1Result.mk "m" "resp"]) r "m")).sum =
      ([Stage2Result.mk "judge" "t" ["Response A"]].filter (fun r =>
        r.parsed_ranking.any (fun lab =>
          alookup (labelToModelOf [Stage1Result.mk "m" "resp"]) lab = some "m"))).length := by
  have hmp : modelPositionsOf (labelToModelOf [Stage1Result.mk "m" "resp"])
      [Stage2Result.mk "judge" "t" ["Response A"]] = [("m", [1])] := by decide
  have hmem : AggregateRanking.mk "m" (round100 (avgOf [1])) 1 ∈
      calculateAggregateRankings [Stage2Result.mk "judge" "t" ["Response A"]]
        (labelToModelOf [Stage1Result.mk "m" "resp"]) := by
    have hcalc : calculateAggregateRankings [Stage2Result.mk "judge" "t" ["Response A"]]
        (labelToModelOf [Stage1Result.mk "m" "resp"]) =
          [AggregateRanking.mk "m" (round100 (avgOf [1])) 1] := by
      unfold calculateAggregateRankings
      rw [preAggregate_entries, hmp]
      rfl
    rw [hcalc]
    simp
  refine ⟨hmem,
    C4_aggregate_contains_known_models.1 _ _ _ hmem,
    C4_aggregate_contains_known_models.2.1 _ _ _ hmem,
    by decide,
    C4_aggregate_contains_known_models.2.2 _ _ "m" (by decide)⟩

theorem C4_vote_count_counterexample :
    (calculateAggregateRankings
        [Stage2Result.mk "judge" "t" ["Response A", "Response A"]]
        (labelToModelOf [Stage1Result.mk "m" "resp"])).map
      (fun e => (e.model, e.rankings_count)) = [("m", 2)] ∧
    ([Stage2Result.mk "judge" "t" ["Response A", "Response A"]].filter (fun r =>
        r.parsed_ranking.any (fun lab =>
          alookup (labelToModelOf [Stage1Result.mk "m" "resp"]) lab =
            some "m"))).length = 1 ∧
    (2 : Nat) ≠ 1 := by
  have hmp : modelPositionsOf (labelToModelOf [Stage1Result.mk "m" "resp"])
      [Stage2Result.mk "judge" "t" ["Response A", "Response A"]] = [("m", [1, 2])] := by
    decide
  refine ⟨?_, by decide, by decide⟩
  unfold calculateAggregateRankings
  rw [preAggregate_entries, hmp]
  rfl

theorem startLoop_succ (promptErr : String → Option String) (now : Nat) (fuel : Nat)
    (s : DiscussionState) :
    startLoop promptErr now (fuel + 1) s =
      (if s.status ≠ DiscussionStatus.running then ([], s)
      else if s.currentRound > s.config.maxRounds then
        ([DiscussionEvent.discussion_complete CompleteReason.max_rounds],
          { s with status := DiscussionStatus.completed, completedAt := some now })
      else if checkConsensus s then
        ([DiscussionEvent.discussion_complete CompleteReason.consensus],
          { s with consensusDetected := true, status := DiscussionStatus.completed,
                   completedAt := some now })
      else
        match s.config.roles[s.currentSpeakerIndex]? with
        | none => ([], s)
        | some currentRole =>
          let turnEvents := DiscussionEvent.round_start s.currentRound currentRole.id ::
            promptEvents promptErr currentRole.id
          let nextIndex := (s.currentSpeakerIndex + 1) % s.config.roles.length
          if nextIndex = 0 then
            let rec1 := startLoop promptErr now fuel
              { s with currentSpeakerIndex := 0, currentRound := s.currentRound + 1 }
            (turnEvents ++ [DiscussionEvent.round_complete s.currentRound] ++ rec1.1, rec1.2)
          else
            let rec1 := startLoop promptErr now fuel { s with currentSpeakerIndex := nextIndex }
            (turnEvents ++ rec1.1, rec1.2)) := rfl

theorem startLoop_round_one (promptErr : String → Option String) (now : Nat) :
    ∀ (n : Nat) (s : DiscussionState),
      s.status = DiscussionStatus.running →
      s.config.maxRounds = 1 →
      s.currentRound = 1 →
      s.messages = [] →
      s.currentSpeakerIndex + n + 1 = s.config.roles.length →
      startLoop promptErr now (n + 2) s =
        (((s.config.roles.drop s.currentSpeakerIndex).map (fun role =>
            DiscussionEvent.round_start 1 role.id :: promptEvents promptErr role.id)).flatten
          ++ [DiscussionEvent.round_complete 1,
              DiscussionEvent.discussion_complete CompleteReason.max_rounds],
         { s with currentSpeakerIndex := 0, currentRound := 2,
                  status := DiscussionStatus.completed, completedAt := some now }) := by
  intro n
  induction n with
  | zero =>
    intro s h1 h2 h3 h4 hidx
    have hlt : s.currentSpeakerIndex < s.config.roles.length := by omega
    have hcons : checkConsensus s = false := by
      unfold checkConsensus
      rw [h4]
      simp
    have hrole : s.config.roles[s.currentSpeakerIndex]? =
        some (s.config.roles[s.currentSpeakerIndex]) := List.getElem?_eq_getElem hlt
    have hstep : startLoop promptErr now (0 + 2) s = startLoop promptErr now (1 + 1) s := rfl
    rw [hstep, startLoop_succ]
    rw [if_neg (by rw [h1]; simp)]
    rw [if_neg (by omega)]
    rw [if_neg (by rw [hcons]; simp)]
    rw [hrole]
    simp only
    have hmod : (s.currentSpeakerIndex + 1) % s.config.roles.length = 0 := by
      have : s.currentSpeakerIndex + 1 = s.config.roles.length := by omega
      rw [this, Nat.mod_self]
    rw [hmod]
    rw [if_pos rfl]
    rw [startLoop_succ]
    rw [if_neg (by simp [h1])]
    rw [if_pos (by simp [h2, h3])]
    have hdrop1 : s.config.roles.drop s.currentSpeakerIndex =
        s.config.roles[s.currentSpeakerIndex] :: s.config.roles.drop
          (s.currentSpeakerIndex + 1) := List.drop_eq_getElem_cons hlt
    have hdrop2 : s.config.roles.drop (s.currentSpeakerIndex + 1) = [] :=
      List.drop_eq_nil_of_le (by omega)
    rw [hdrop1, hdrop2]
    simp [h3]
  | succ n ih =>
    intro s h1 h2 h3 h4 hidx
    have hlt : s.currentSpeakerIndex < s.config.roles.length := by omega
    have hcons : checkConsensus s = false := by
      unfold checkConsensus
      rw [h4]
      simp
    have hrole : s.config.roles[s.currentSpeakerIndex]? =
        some (s.config.roles[s.currentSpeakerIndex]) := List.getElem?_eq_getElem hlt
    have hstep : startLoop promptErr now (n + 1 + 2) s =
        startLoop promptErr now ((n + 2) + 1) s := rfl
    rw [hstep, startLoop_succ]
    rw [if_neg (by rw [h1]; simp)]
    rw [if_neg (by omega)]
    rw [if_neg (by rw [hcons]; simp)]
    rw [hrole]
    simp only
    have hmod : (s.currentSpeakerIndex + 1) % s.config.roles.length =
        s.currentSpeakerIndex + 1 := Nat.mod_eq_of_lt (by omega)
    rw [hmod]
    rw [if_neg (by omega)]
    have hrec := ih { s with currentSpeakerIndex := s.currentSpeakerIndex + 1 }
      (by simp [h1]) (by simp [h2]) (by simp [h3]) (by simp [h4]) (by simp; omega)
    rw [hrec]
    have hdrop1 : s.config.roles.drop s.currentSpeakerIndex =
        s.config.roles[s.currentSpeakerIndex] :: s.config.roles.drop
          (s.currentSpeakerIndex + 1) := List.drop_eq_getElem_cons hlt
    rw [hdrop1]
    simp [h3, List.append_assoc]
    have hltm : s.currentSpeakerIndex <
        (List.map (fun role => DiscussionEvent.round_start 1 role.id ::
          promptEvents promptErr role.id) s.config.roles).length := by
      simpa using hlt
    rw [List.drop_eq_getElem_cons hltm]
    simp [List.append_assoc]

theorem invokedSpeakers_append (a b : List DiscussionEvent) :
    invokedSpeakers (a ++ b) = invokedSpeakers a ++ invokedSpeakers b :=
  List.filterMap_append a b _

theorem invokedSpeakers_cons (e : DiscussionEvent) (l : List DiscussionEvent) :
    invokedSpeakers (e :: l) =
      (match e with
        | DiscussionEvent.round_start _ speakerId => [speakerId]
        | _ => []) ++ invokedSpeakers l := by
  cases e <;> rfl

theorem invokedSpeakers_promptEvents (promptErr : String → Option String)
    (roleId : String) :
    invokedSpeakers (promptEvents promptErr roleId) = [] := by
  unfold promptEvents
  cases promptErr roleId <;> rfl

theorem invokedSpeakers_blocks (promptErr : String → Option String) (round : Nat)
    (roles : List AgentRole) :
    invokedSpeakers ((roles.map (fun role =>
        DiscussionEvent.round_start round role.id ::
          promptEvents promptErr role.id)).flatten) =
      roles.map (fun role => role.id) := by
  induction roles with
  | nil => rfl
  | cons r rs ih =>
    rw [List.map_cons, List.flatten_cons, invokedSpeakers_append, ih,
      invokedSpeakers_cons, invokedSpeakers_promptEvents, List.map_cons]
    simp

theorem endsWith_complete (x : DiscussionEvent) (pre : List DiscussionEvent)
    (r : CompleteReason) :
    (x :: (pre ++ [DiscussionEvent.round_complete 1,
        DiscussionEvent.discussion_complete r])).getLast? =
      some (DiscussionEvent.discussion_complete r) := by
  have h : x :: (pre ++ [DiscussionEvent.round_complete 1,
      DiscussionEvent.discussion_complete r]) =
      (x :: (pre ++ [DiscussionEvent.round_complete 1])) ++
        [DiscussionEvent.discussion_complete r] := by simp
  rw [h, List.getLast?_concat]

/-- C9: a discussion started on a fresh state with `maxRounds = 1`, a
non-empty role list, and an unreachably high consensus threshold produces a
finite event sequence in which every configured role is invoked
(`round_start`) exactly once, in configuration order; the sequence ends with
a `discussion_complete` event with reason `max_rounds`; and the final state
is `completed` with `completedAt` stamped. -/
theorem C9_max_rounds_termination (promptErr : String → Option String)
    (now createdAt : Nat) (id : String) (config : DiscussionConfig)
    (hroles : config.roles ≠ [])
    (hmax : config.maxRounds = 1)
    (hthresh : 1 < config.consensusThreshold) :
    invokedSpeakers (startDiscussion promptErr now
        (initialDiscussionState id config createdAt) (config.roles.length + 1)).1 =
      config.roles.map (fun role => role.id) ∧
    (startDiscussion promptErr now (initialDiscussionState id config createdAt)
        (config.roles.length + 1)).1.getLast? =
      some (DiscussionEvent.discussion_complete CompleteReason.max_rounds) ∧
    (startDiscussion promptErr now (initialDiscussionState id config createdAt)
        (config.roles.length + 1)).2.status = DiscussionStatus.completed ∧
    (startDiscussion promptErr now (initialDiscussionState id config createdAt)
        (config.roles.length + 1)).2.completedAt = some now := by
  obtain ⟨n, hn⟩ : ∃ n, config.roles.length = n + 1 := by
    cases hl : config.roles.length with
    | zero => exact absurd (List.length_eq_zero.mp hl) hroles
    | succ m => exact ⟨m, rfl⟩
  have key := startLoop_round_one promptErr now n
    (initialDiscussionState id config createdAt)
    rfl hmax rfl rfl (by simp [initialDiscussionState]; omega)
  have hfuel : config.roles.length + 1 = n + 2 := by omega
  rw [hfuel]
  simp only [startDiscussion]
  rw [key]
  refine ⟨?_, ?_, rfl, rfl⟩
  · rw [show (initialDiscussionState id config createdAt).currentSpeakerIndex = 0
      from rfl, List.drop_zero, invokedSpeakers_cons, invokedSpeakers_append,
      invokedSpeakers_blocks]
    simp [invokedSpeakers]
    rfl
  · exact endsWith_complete _ _ _

theorem C9_max_rounds_termination_witness :
    soloConfig.roles ≠ [] ∧
    1 < soloConfig.consensusThreshold ∧
    (invokedSpeakers (startDiscussion (fun _ => none) 55
        (initialDiscussionState "d1" soloConfig 42) (soloConfig.roles.length + 1)).1 =
      soloConfig.roles.map (fun role => role.id) ∧
    (startDiscussion (fun _ => none) 55 (initialDiscussionState "d1" soloConfig 42)
        (soloConfig.roles.length + 1)).1.getLast? =
      some (DiscussionEvent.discussion_complete CompleteReason.max_rounds) ∧
    (startDiscussion (fun _ => none) 55 (initialDiscussionState "d1" soloConfig 42)
        (soloConfig.roles.length + 1)).2.status = DiscussionStatus.completed ∧
    (startDiscussion (fun _ => none) 55 (initialDiscussionState "d1" soloConfig 42)
        (soloConfig.roles.length + 1)).2.completedAt = some 55) :=
  ⟨by decide, by decide,
    C9_max_rounds_termination (fun _ => none) 55 42 "d1" soloConfig
      (by decide) rfl (by decide)⟩
